import Mathlib

/-!
Verification development for the `db` repository: a single-table B+ tree
storage engine written in Go, driven by a small interactive shell.

The definitions below are a shallow embedding of the Go source.  The engine
embedded here is the latest snapshot of the engine (the file registered as
`src/unnamed/part_002`, package `main`, together with `src/pkg/constants` and
`src/pkg/types`); the command-line helpers (`CleanInput`, `PrepareStatement`)
are embedded from `src/unnamed/part_003` (package `cli`), whose bodies agree
with the copies in `src/main.go`.

Modelling conventions:
 * A page (`types.Page = [4096]byte`) is a natural number in little-endian
   base 256: byte `i` of page `p` is `p / 256 ^ i % 256`.  The primitive
   `chunk p off n` reads the `n`-byte little-endian region at offset `off`,
   and `splice p off n c` overwrites that region with `c`; every Go read and
   write of page memory factors through these two.
 * Go `uint32` arithmetic is modelled on `Nat` with explicit wrapping
   (`add32`, `sub32`, `mul32`, each reducing modulo `2 ^ 32`).
 * Go slice expressions `node[a:b]` panic when the bounds are out of range;
   accessors that form such slices return `Except Fault _`, with
   `Fault.sliceOutOfRange` for a panic.  `os.Exit(1)` / `log.Fatal` are the
   other `Fault` constructors.  Recursive procedures carry a fuel argument;
   `Fault.outOfFuel` is a modelling artefact that never occurs in any run or
   theorem below (fuel is always chosen large enough).
 * Statement-level Go `error` results are modelled by `Option EngineErr` or
   `Except EngineErr` inside `Except Fault`: a non-fatal error is returned
   to the shell, a `Fault` terminates the process.
 * The pager owns one buffer per page number (Go `[tableMaxPages]*Page`);
   Go code mutates pages through slice aliases, which is modelled by reading
   and writing pages through the current `Table` state at their page number.
 * Shell input lines and Go strings are byte lists.  `strings.TrimSpace`,
   `strings.ToLower` and `strings.EqualFold` are Unicode-aware; the embedding
   models their behaviour on ASCII input (the hypotheses of the relevant
   theorems restrict inputs to ASCII).
-/

namespace DbScratch

/-! Layout constants, from `src/pkg/constants/constants.go`. -/

def pageSize : Nat := 4096

def tableMaxPages : Nat := 100

def invalidPageNum : Nat := 4294967295

def idSize : Nat := 4

def usernameSize : Nat := 32

def emailSize : Nat := 255

def idOffset : Nat := 0

def usernameOffset : Nat := idOffset + idSize

def emailOffset : Nat := usernameOffset + usernameSize

def rowSize : Nat := idSize + usernameSize + emailSize

def nodeTypeOffset : Nat := 0

def isRootOffset : Nat := 1

def parentPointerOffset : Nat := 2

def commonNodeHeaderSize : Nat := 6

def leafNodeNumCellsOffset : Nat := commonNodeHeaderSize

def leafNodeNextLeafOffset : Nat := leafNodeNumCellsOffset + 4

def leafNodeHeaderSize : Nat := commonNodeHeaderSize + 4 + 4

def leafNodeKeySize : Nat := 4

def leafNodeValueSize : Nat := rowSize

def leafNodeCellSize : Nat := leafNodeKeySize + leafNodeValueSize

def leafNodeSpaceForCells : Nat := pageSize - leafNodeHeaderSize

def leafNodeMaxCells : Nat := leafNodeSpaceForCells / leafNodeCellSize

def leafNodeRightSplitCount : Nat := (leafNodeMaxCells + 1) / 2

def leafNodeLeftSplitCount : Nat := (leafNodeMaxCells + 1) - leafNodeRightSplitCount

def internalNodeNumKeysOffset : Nat := commonNodeHeaderSize

def internalNodeRightChildOffset : Nat := internalNodeNumKeysOffset + 4

def internalNodeHeaderSize : Nat := commonNodeHeaderSize + 4 + 4

def internalNodeKeySize : Nat := 4

def internalNodeChildSize : Nat := 4

def internalNodeCellSize : Nat := internalNodeChildSize + internalNodeKeySize

def internalNodeMaxCells : Nat := 3

/-- Node type byte for internal nodes (`types.NodeInternal`). -/
def nodeInternal : Nat := 0

/-- Node type byte for leaf nodes (`types.NodeLeaf`). -/
def nodeLeaf : Nat := 1

/-! Wrapping 32-bit arithmetic on `Nat`, as Go `uint32` computes it. -/

def u32Size : Nat := 4294967296

def w32 (x : Nat) : Nat := x % u32Size

def add32 (a b : Nat) : Nat := w32 (a + b)

def sub32 (a b : Nat) : Nat := w32 (w32 a + u32Size - w32 b)

def mul32 (a b : Nat) : Nat := w32 (a * b)

/-! Pages and raw byte access. -/

/-- A page buffer: Go `types.Page = [4096]byte`, encoded as a natural number
in little-endian base 256 (byte `i` of the page is `p / 256 ^ i % 256`). -/
abbrev Page : Type := Nat

/-- A fresh zeroed page, Go `types.Page{}`. -/
def zeroPage : Page := 0

/-- The base-256 place value `256 ^ n`, computed by a shift so that kernel
evaluation of concrete runs stays fast (`pow256_eq` below identifies it with
`256 ^ n`). -/
def pow256 (n : Nat) : Nat := Nat.shiftLeft 1 (8 * n)

/-- The `n`-byte little-endian region of a page at byte offset `off`, as a
number below `256 ^ n`. -/
def chunk (p : Page) (off n : Nat) : Nat := p / pow256 off % pow256 n

/-- Overwrite the `n`-byte region at byte offset `off` with the little-endian
bytes of `c` (reduced modulo `256 ^ n`); bytes outside the region keep their
values. -/
def splice (p : Page) (off n c : Nat) : Page :=
  p % pow256 off + c % pow256 n * pow256 off + p / pow256 (off + n) * pow256 (off + n)

/-- Go `binary.LittleEndian.Uint32(node[off:])`. -/
def getU32 (p : Page) (off : Nat) : Nat := chunk p off 4

/-- Go `binary.LittleEndian.PutUint32(node[off:], v)`. -/
def putU32 (p : Page) (off v : Nat) : Page := splice p off 4 (w32 v)

/-- Store of a single byte (the node-type and is-root bytes). -/
def putByte (p : Page) (off v : Nat) : Page := splice p off 1 v

/-- Go `copy(dst[dstOff:dstOff+n], src[srcOff:srcOff+n])`; Go `copy` has
memmove semantics, so all reads see the source as it was before the call. -/
def copyBytes (dst : Page) (dstOff : Nat) (src : Page) (srcOff n : Nat) : Page :=
  splice dst dstOff n (chunk src srcOff n)

/-- The little-endian number whose bytes are the first `n` entries of a byte
list (each reduced modulo 256). -/
def leBytes : List Nat → Nat → Nat
  | _, 0 => 0
  | l, n + 1 => l.headD 0 % 256 + 256 * leBytes l.tail n

/-- Go `copy(dst[dstOff:dstOff+n], buf)` from a freshly built byte slice:
`copy` transfers `min n buf.length` bytes. -/
def copyList (dst : Page) (dstOff : Nat) (buf : List Nat) (n : Nat) : Page :=
  splice dst dstOff (min n buf.length) (leBytes buf (min n buf.length))

/-! Faults and statement-level errors. -/

/-- Process-terminating events: `os.Exit(1)` calls, `log.Fatal` calls and Go
runtime panics (out-of-range slice or index expressions). -/
inductive Fault where
  /-- `getPage`: "tried to fetch page number out of bounds", `os.Exit(1)`. -/
  | pageOutOfBounds : Fault
  /-- A Go slice expression with bounds outside the page. -/
  | sliceOutOfRange : Fault
  /-- A Go index expression out of range (e.g. `text[0]` on an empty string,
  or `text[:6]` on a shorter string). -/
  | indexOutOfRange : Fault
  /-- `internalNodeChild`: "Tried to access childNum > numKeys", `log.Fatalf`. -/
  | childPastNumKeys : Fault
  /-- `internalNodeChild`: access to the `InvalidPageNum` sentinel, `log.Fatal`. -/
  | accessInvalidPage : Fault
  /-- Modelling artefact: recursion fuel ran out (never happens below). -/
  | outOfFuel : Fault
deriving DecidableEq, Repr

/-- Non-fatal statement errors returned to the shell (`error` values built
with `fmt.Errorf`, and `fmt.Sscanf` failures, in the Go source). -/
inductive EngineErr where
  /-- "duplicate key" from `executeInsert`. -/
  | duplicateKey : EngineErr
  /-- "key %d does not exist" from `executeDelete`. -/
  | keyDoesNotExist (key : Nat) : EngineErr
  /-- "string is too long" from `PrepareStatement`. -/
  | stringTooLong : EngineErr
  /-- "unknown statement" from `PrepareStatement`. -/
  | unknownStatement : EngineErr
  /-- A `fmt.Sscanf` failure inside `PrepareStatement`. -/
  | scanErr : EngineErr
deriving DecidableEq, Repr

/-- Results of engine procedures: either a fault that terminates the process
or a normal return value. -/
abbrev Res (α : Type) := Except Fault α

/-- Equality of results is decidable componentwise (used to evaluate the
concrete runs below). -/
instance instDecEqExcept {ε α : Type} [DecidableEq ε] [DecidableEq α] :
    DecidableEq (Except ε α) := fun a b =>
  match a, b with
  | .error e, .error f =>
    if h : e = f then .isTrue (by rw [h]) else .isFalse (by simp [h])
  | .error _, .ok _ => .isFalse (by simp)
  | .ok _, .error _ => .isFalse (by simp)
  | .ok x, .ok y =>
    if h : x = y then .isTrue (by rw [h]) else .isFalse (by simp [h])

/-! Pager and table state, from the `Pager` and `Table` structs. -/

/-- The pager: backing file contents (as one little-endian number per page),
its length, the page count and the page slot table
(Go `pages [tableMaxPages]*types.Page`, a fixed-size array of nullable
buffers; `none` is a nil slot). -/
structure Pager where
  fileBytes : Nat → Nat
  fileLength : Nat
  numPages : Nat
  pages : List (Option Page)

/-- The table: a pager plus the root page number (always 0). -/
structure Table where
  pager : Pager
  rootPageNum : Nat

/-- A cursor: `(page_num, cell_num, end_of_table)`.  The Go struct also holds
the table pointer; here the table is passed explicitly. -/
structure Cursor where
  pageNum : Nat
  cellNum : Nat
  endOfTable : Bool
deriving DecidableEq, Repr

/-- The page currently in slot `pn` (meaningful only when the slot is
populated; all uses below follow a `getPage` that populates it). -/
def pageAt (t : Table) (pn : Nat) : Page :=
  (t.pager.pages.getD pn none).getD zeroPage

/-- Replace the buffer in slot `pn` (a Go write through a page alias). -/
def setPage (t : Table) (pn : Nat) (p : Page) : Table :=
  { t with pager := { t.pager with pages := t.pager.pages.set pn (some p) } }

/-- Read a little-endian u32 at `(page, offset)` of the current state. -/
def rU32 (t : Table) (pn off : Nat) : Nat := getU32 (pageAt t pn) off

/-- Write a little-endian u32 at `(page, offset)` of the current state. -/
def wU32 (t : Table) (pn off v : Nat) : Table := setPage t pn (putU32 (pageAt t pn) off v)

/-- Read one byte at `(page, offset)` of the current state. -/
def rByte (t : Table) (pn off : Nat) : Nat := chunk (pageAt t pn) off 1

/-- Write one byte at `(page, offset)` of the current state. -/
def wByte (t : Table) (pn off v : Nat) : Table := setPage t pn (putByte (pageAt t pn) off v)

/-- Go `getPage` (part_002 version): bounds check `pageNum >= TableMaxPages`
exits the process; a miss allocates a zeroed buffer, fills it from the file
when the page lies within the stored pages, installs it and bumps `numPages`. -/
def getPage (t : Table) (pageNum : Nat) : Res (Page × Table) :=
  if pageNum ≥ tableMaxPages then .error .pageOutOfBounds
  else
    match t.pager.pages.getD pageNum none with
    | some p => .ok (p, t)
    | none =>
      let filePages :=
        t.pager.fileLength / pageSize +
          (if t.pager.fileLength % pageSize ≠ 0 then 1 else 0)
      let pg : Page :=
        if pageNum < filePages then chunk (t.pager.fileBytes pageNum) 0 pageSize
        else zeroPage
      let np := if pageNum ≥ t.pager.numPages then pageNum + 1 else t.pager.numPages
      .ok (pg, { t with pager := { t.pager with
          numPages := np,
          pages := t.pager.pages.set pageNum (some pg) } })

/-! Node accessors, from part_002.  Constant-offset header accessors cannot
fault (their slices lie inside the page); cell accessors compute a `uint32`
offset that can wrap, and return the slice panic as a fault exactly when Go
would panic. -/

/-- Go `getNodeType(node)`: the byte at offset 0. -/
def getNodeType (t : Table) (pn : Nat) : Nat := rByte t pn nodeTypeOffset

/-- Go `setNodeType(node, nt)`. -/
def setNodeType (t : Table) (pn v : Nat) : Table := wByte t pn nodeTypeOffset v

/-- Go `isNodeRoot(node)`: whether the byte at offset 1 equals 1. -/
def isNodeRoot (t : Table) (pn : Nat) : Bool := rByte t pn isRootOffset = 1

/-- Go `setNodeRoot(node, isRoot)`. -/
def setNodeRoot (t : Table) (pn : Nat) (b : Bool) : Table :=
  wByte t pn isRootOffset (if b then 1 else 0)

/-- Go `nodeParent(node)` as a read. -/
def nodeParentGet (t : Table) (pn : Nat) : Nat := rU32 t pn parentPointerOffset

/-- Write through the `nodeParent(node)` slice. -/
def nodeParentSet (t : Table) (pn v : Nat) : Table := wU32 t pn parentPointerOffset v

/-- Go `leafNodeNumCells(node)` as a read. -/
def leafNumCellsGet (t : Table) (pn : Nat) : Nat := rU32 t pn leafNodeNumCellsOffset

/-- Write through the `leafNodeNumCells(node)` slice. -/
def leafNumCellsSet (t : Table) (pn v : Nat) : Table := wU32 t pn leafNodeNumCellsOffset v

/-- Go `leafNodeNextLeaf(node)` as a read. -/
def leafNextLeafGet (t : Table) (pn : Nat) : Nat := rU32 t pn leafNodeNextLeafOffset

/-- Write through the `leafNodeNextLeaf(node)` slice. -/
def leafNextLeafSet (t : Table) (pn v : Nat) : Table := wU32 t pn leafNodeNextLeafOffset v

/-- Go `internalNodeNumKeys(node)` as a read. -/
def internalNumKeysGet (t : Table) (pn : Nat) : Nat := rU32 t pn internalNodeNumKeysOffset

/-- Write through the `internalNodeNumKeys(node)` slice. -/
def internalNumKeysSet (t : Table) (pn v : Nat) : Table :=
  wU32 t pn internalNodeNumKeysOffset v

/-- Go `internalNodeRightChild(node)` as a read. -/
def internalRightChildGet (t : Table) (pn : Nat) : Nat :=
  rU32 t pn internalNodeRightChildOffset

/-- Write through the `internalNodeRightChild(node)` slice. -/
def internalRightChildSet (t : Table) (pn v : Nat) : Table :=
  wU32 t pn internalNodeRightChildOffset v

/-- Offset of `leafNodeCell(node, cellNum)`, with the Go slice bounds check:
`node[offset : offset+LeafNodeCellSize]` panics unless
`offset ≤ offset+295 ≤ 4096` (both ends computed in `uint32`). -/
def leafNodeCellOff (cellNum : Nat) : Res Nat :=
  let off := add32 leafNodeHeaderSize (mul32 cellNum leafNodeCellSize)
  let hi := add32 off leafNodeCellSize
  if off ≤ hi ∧ hi ≤ pageSize then .ok off else .error .sliceOutOfRange

/-- Go `leafNodeKey(node, cellNum)` as a read: the first 4 bytes of the cell. -/
def leafNodeKeyGet (t : Table) (pn cellNum : Nat) : Res Nat := do
  let off ← leafNodeCellOff cellNum
  .ok (rU32 t pn off)

/-- Write through the `leafNodeKey(node, cellNum)` slice. -/
def leafNodeKeySet (t : Table) (pn cellNum v : Nat) : Res Table := do
  let off ← leafNodeCellOff cellNum
  .ok (wU32 t pn off v)

/-- Offset of `leafNodeValue(node, cellNum)`: the cell offset plus the key
size (the inner subslice of the 295-byte cell never faults on its own). -/
def leafNodeValueOff (cellNum : Nat) : Res Nat := do
  let off ← leafNodeCellOff cellNum
  .ok (off + leafNodeKeySize)

/-- Go `copy(leafNodeValue(node, cellNum), buf)` for a row buffer. -/
def leafNodeValueWrite (t : Table) (pn cellNum : Nat) (buf : List Nat) : Res Table := do
  let off ← leafNodeValueOff cellNum
  .ok (setPage t pn (copyList (pageAt t pn) off buf leafNodeValueSize))

/-- Go `copy(leafNodeCell(dst, dstCell), leafNodeCell(src, srcCell))`; the two
nodes may be the same page (`copy` reads the source before any write). -/
def leafCellCopy (t : Table) (dstPn dstCell srcPn srcCell : Nat) : Res Table := do
  let dOff ← leafNodeCellOff dstCell
  let sOff ← leafNodeCellOff srcCell
  .ok (setPage t dstPn
    (copyBytes (pageAt t dstPn) dOff (pageAt t srcPn) sOff leafNodeCellSize))

/-- Offset of `internalNodeCell(node, cellNum)`, with the Go bounds check for
`node[offset : offset+InternalNodeCellSize]`. -/
def internalNodeCellOff (cellNum : Nat) : Res Nat :=
  let off := add32 internalNodeHeaderSize (mul32 cellNum internalNodeCellSize)
  let hi := add32 off internalNodeCellSize
  if off ≤ hi ∧ hi ≤ pageSize then .ok off else .error .sliceOutOfRange

/-- Go `internalNodeKey(node, keyNum)` as a read: bytes 4..8 of the cell. -/
def internalNodeKeyGet (t : Table) (pn keyNum : Nat) : Res Nat := do
  let off ← internalNodeCellOff keyNum
  .ok (rU32 t pn (off + internalNodeChildSize))

/-- Write through the `internalNodeKey(node, keyNum)` slice. -/
def internalNodeKeySet (t : Table) (pn keyNum v : Nat) : Res Table := do
  let off ← internalNodeCellOff keyNum
  .ok (wU32 t pn (off + internalNodeChildSize) v)

/-- Go `internalNodeCell`-to-`internalNodeCell` copy within one node (the
shift loop of `internalNodeInsert`). -/
def internalCellCopy (t : Table) (pn dstCell srcCell : Nat) : Res Table := do
  let dOff ← internalNodeCellOff dstCell
  let sOff ← internalNodeCellOff srcCell
  .ok (setPage t pn
    (copyBytes (pageAt t pn) dOff (pageAt t pn) sOff internalNodeCellSize))

/-- Go `internalNodeChild(node, childNum)` as a read.  `log.Fatalf` when
`childNum > numKeys`; `childNum = numKeys` designates the right child, which
must not be the `InvalidPageNum` sentinel; otherwise the cell's stored child,
which must not be the sentinel either. -/
def internalNodeChildGet (t : Table) (pn childNum : Nat) : Res Nat :=
  let numKeys := internalNumKeysGet t pn
  if childNum > numKeys then .error .childPastNumKeys
  else if childNum = numKeys then
    let rightChild := internalRightChildGet t pn
    if rightChild = invalidPageNum then .error .accessInvalidPage
    else .ok rightChild
  else do
    let off ← internalNodeCellOff childNum
    let childPageNum := rU32 t pn off
    if childPageNum = invalidPageNum then .error .accessInvalidPage
    else .ok childPageNum

/-- Write through the slice returned by `internalNodeChild(node, childNum)`
(the Go code stores a new page number through the returned 4-byte view): the
same checks run while obtaining the slice, then the store happens either to
the right-child field or to the cell's child field. -/
def internalNodeChildSet (t : Table) (pn childNum v : Nat) : Res Table :=
  let numKeys := internalNumKeysGet t pn
  if childNum > numKeys then .error .childPastNumKeys
  else if childNum = numKeys then
    let rightChild := internalRightChildGet t pn
    if rightChild = invalidPageNum then .error .accessInvalidPage
    else .ok (internalRightChildSet t pn v)
  else do
    let off ← internalNodeCellOff childNum
    let childPageNum := rU32 t pn off
    if childPageNum = invalidPageNum then .error .accessInvalidPage
    else .ok (wU32 t pn off v)

/-- Go `initializeLeafNode(node)`. -/
def initializeLeafNode (t : Table) (pn : Nat) : Table :=
  let t := setNodeType t pn nodeLeaf
  let t := setNodeRoot t pn false
  let t := leafNumCellsSet t pn 0
  leafNextLeafSet t pn 0

/-- Go `initializeInternalNode(node)`: note the right child is set to the
`InvalidPageNum` sentinel, and the node body is not cleared. -/
def initializeInternalNode (t : Table) (pn : Nat) : Table :=
  let t := setNodeType t pn nodeInternal
  let t := setNodeRoot t pn false
  let t := internalNumKeysSet t pn 0
  internalRightChildSet t pn invalidPageNum

/-! Search, from part_002: binary searches and the descent. -/

/-- Loop body of Go `internalNodeFindChild`: binary search on `[minIdx, maxIdx)`
for the smallest index whose key is `≥ key`.  The Go loop runs while
`minIdx != maxIdx`; from the entry point `0, numKeys` the invariant
`minIdx ≤ maxIdx` holds throughout, so the `Nat` midpoint agrees with the
`uint32` one.  Fuel 64 covers every terminating `uint32` search. -/
def findChildLoop : Nat → Page → Nat → Nat → Nat → Res Nat
  | 0, _, _, _, _ => .error .outOfFuel
  | fuel + 1, p, key, minIdx, maxIdx =>
    if minIdx = maxIdx then .ok minIdx
    else
      let midIdx := (maxIdx - minIdx) / 2 + minIdx
      do
        let off ← internalNodeCellOff midIdx
        let keyToRight := getU32 p (off + internalNodeChildSize)
        if keyToRight ≥ key then findChildLoop fuel p key minIdx midIdx
        else findChildLoop fuel p key (midIdx + 1) maxIdx

/-- Go `internalNodeFindChild(node, key)`: index of the child which should
contain the given key. -/
def internalNodeFindChild (p : Page) (key : Nat) : Res Nat :=
  findChildLoop 64 p key 0 (getU32 p internalNodeNumKeysOffset)

/-- Go `updateInternalNodeKey(node, oldKey, newKey)`. -/
def updateInternalNodeKey (t : Table) (pn oldKey newKey : Nat) : Res Table := do
  let oldChildIdx ← internalNodeFindChild (pageAt t pn) oldKey
  internalNodeKeySet t pn oldChildIdx newKey

/-- Loop body of Go `leafNodeFind`: binary search with an equality early exit,
over `[minIdx, onePastMaxIdx)`. -/
def leafFindLoop : Nat → Page → Nat → Nat → Nat → Res Nat
  | 0, _, _, _, _ => .error .outOfFuel
  | fuel + 1, p, key, minIdx, onePastMaxIdx =>
    if onePastMaxIdx = minIdx then .ok minIdx
    else
      let midIdx := (onePastMaxIdx - minIdx) / 2 + minIdx
      do
        let off ← leafNodeCellOff midIdx
        let keyAtIdx := getU32 p off
        if key = keyAtIdx then .ok midIdx
        else if key < keyAtIdx then leafFindLoop fuel p key minIdx midIdx
        else leafFindLoop fuel p key (midIdx + 1) onePastMaxIdx

/-- Go `leafNodeFind(table, pageNum, key)`. -/
def leafNodeFind (t : Table) (pageNum key : Nat) : Res (Cursor × Table) := do
  let (node, t) ← getPage t pageNum
  let numCells := getU32 node leafNodeNumCellsOffset
  let cell ← leafFindLoop 64 node key 0 numCells
  .ok ({ pageNum := pageNum, cellNum := cell, endOfTable := false }, t)

/-- Go `internalNodeFind(table, pageNum, key)`: descend into the child that
should contain the key; the recursion is fuelled. -/
def internalNodeFind : Nat → Table → Nat → Nat → Res (Cursor × Table)
  | 0, _, _, _ => .error .outOfFuel
  | fuel + 1, t, pageNum, key => do
    let (node, t) ← getPage t pageNum
    let childIdx ← internalNodeFindChild node key
    let childNum ← internalNodeChildGet t pageNum childIdx
    let (child, t) ← getPage t childNum
    if chunk child nodeTypeOffset 1 = nodeLeaf then leafNodeFind t childNum key
    else internalNodeFind fuel t childNum key

/-- Go `tableFind(table, key)`. -/
def tableFind (fuel : Nat) (t : Table) (key : Nat) : Res (Cursor × Table) := do
  let (rootNode, t) ← getPage t t.rootPageNum
  if chunk rootNode nodeTypeOffset 1 = nodeLeaf then leafNodeFind t t.rootPageNum key
  else internalNodeFind fuel t t.rootPageNum key

/-- Go `tableStart(table)`: `tableFind(table, 0)` and set `endOfTable` iff the
found leaf has zero cells. -/
def tableStart (fuel : Nat) (t : Table) : Res (Cursor × Table) := do
  let (cursor, t) ← tableFind fuel t 0
  let (node, t) ← getPage t cursor.pageNum
  .ok ({ cursor with endOfTable := getU32 node leafNodeNumCellsOffset = 0 }, t)

/-- Go `getNodeMaxKey(pager, node)`: key of the last leaf cell, or recurse
into the right child of an internal node.  For a leaf the cell index is
`numCells - 1` in `uint32`, which underflows on an empty leaf. -/
def getNodeMaxKey : Nat → Table → Page → Res (Nat × Table)
  | 0, _, _ => .error .outOfFuel
  | fuel + 1, t, p =>
    if chunk p nodeTypeOffset 1 = nodeLeaf then
      let numCells := getU32 p leafNodeNumCellsOffset
      do
        let off ← leafNodeCellOff (sub32 numCells 1)
        .ok (getU32 p off, t)
    else do
      let rightChildPageNum := getU32 p internalNodeRightChildOffset
      let (rightChild, t) ← getPage t rightChildPageNum
      getNodeMaxKey fuel t rightChild

/-- Go `getUnusedPageNum(pager)`. -/
def getUnusedPageNum (t : Table) : Nat := t.pager.numPages

/-! Cursor operations and row serialization. -/

/-- Go `(*Cursor).advance()`. -/
def cursorAdvance (t : Table) (c : Cursor) : Res (Cursor × Table) := do
  let (node, t) ← getPage t c.pageNum
  let cellNum := add32 c.cellNum 1
  let numCells := getU32 node leafNodeNumCellsOffset
  if cellNum ≥ numCells then
    let nextPageNum := getU32 node leafNodeNextLeafOffset
    if nextPageNum = 0 then
      .ok ({ c with cellNum := cellNum, endOfTable := true }, t)
    else
      .ok ({ pageNum := nextPageNum, cellNum := 0, endOfTable := c.endOfTable }, t)
  else .ok ({ c with cellNum := cellNum }, t)

/-- Go `(*Cursor).Value()`: the byte offset of the row value the cursor
points at (the returned Go slice is the page region starting there). -/
def cursorValue (t : Table) (c : Cursor) : Res (Nat × Table) := do
  let (_, t) ← getPage t c.pageNum
  let off ← leafNodeValueOff c.cellNum
  .ok (off, t)

/-- A row record (`types.Row`); the Go `Username`/`Email` fields are
fixed-size byte arrays, modelled as byte lists together with the padding
performed by `serializeRow`/`PrepareStatement`. -/
structure Row where
  id : Nat
  username : List Nat
  email : List Nat
deriving DecidableEq, Repr

/-- Little-endian bytes of a `uint32` value. -/
def u32Bytes (v : Nat) : List Nat :=
  [w32 v % 256, w32 v / 256 % 256, w32 v / 65536 % 256, w32 v / 16777216 % 256]

/-- Bytes of a fixed-size Go byte array holding a (shorter) string: the copy
into a zeroed array keeps `n` bytes, null-padding on the right. -/
def padTrunc (l : List Nat) (n : Nat) : List Nat :=
  l.take n ++ List.replicate (n - (l.take n).length) 0

/-- Go `serializeRow(r)`: 291 bytes, the little-endian id then the two
fixed-size arrays. -/
def serializeRow (r : Row) : List Nat :=
  u32Bytes r.id ++ padTrunc r.username usernameSize ++ padTrunc r.email emailSize

/-- Go `deserializeRow(buf)` where `buf` is the page region at `off`. -/
def deserializeRowAt (p : Page) (off : Nat) : Row :=
  { id := getU32 p off
    username := (List.range usernameSize).map (fun i => chunk p (off + usernameOffset + i) 1)
    email := (List.range emailSize).map (fun i => chunk p (off + emailOffset + i) 1) }

/-! Root creation and insertion with splits, from part_002. -/

/-- Loop of `createNewRoot`: rewrite the parent pointers of the left child's
children 0..numKeys-1 to the left child's new page number.  The loop runs
`for i := 0; i < numKeys; i++`; the extra counter (initially `numKeys`, so it
never runs out before the loop guard fails) makes the recursion structural. -/
def reparentLoop : Table → Nat → Nat → Nat → Nat → Nat → Res Table
  | t, _, _, _, _, 0 => .ok t
  | t, leftPn, newParent, i, numKeys, counter + 1 =>
    if i < numKeys then do
      let childPageNum ← internalNodeChildGet t leftPn i
      let (_, t) ← getPage t childPageNum
      let t := nodeParentSet t childPageNum newParent
      reparentLoop t leftPn newParent (i + 1) numKeys counter
    else .ok t

/-- Go `createNewRoot(table, rightChildPageNum)`: copy the old root into a
fresh left child, then re-initialize the root page as an internal node with
one key and two children. -/
def createNewRoot (fuel : Nat) (t : Table) (rightChildPageNum : Nat) : Res Table := do
  let (_, t) ← getPage t t.rootPageNum
  let (_, t) ← getPage t rightChildPageNum
  let leftChildPageNum := getUnusedPageNum t
  let (_, t) ← getPage t leftChildPageNum
  let t :=
    if getNodeType t t.rootPageNum = nodeInternal then
      let t := initializeInternalNode t rightChildPageNum
      initializeInternalNode t leftChildPageNum
    else t
  let t := setPage t leftChildPageNum
    (copyBytes (pageAt t leftChildPageNum) 0 (pageAt t t.rootPageNum) 0 pageSize)
  let t := setNodeRoot t leftChildPageNum false
  let t ←
    if getNodeType t leftChildPageNum = nodeInternal then do
      let numKeys := internalNumKeysGet t leftChildPageNum
      let t ← reparentLoop t leftChildPageNum leftChildPageNum 0 numKeys numKeys
      let rcPageNum := internalRightChildGet t leftChildPageNum
      let (_, t) ← getPage t rcPageNum
      Except.ok (nodeParentSet t rcPageNum leftChildPageNum)
    else Except.ok t
  let t := initializeInternalNode t t.rootPageNum
  let t := setNodeRoot t t.rootPageNum true
  let t := internalNumKeysSet t t.rootPageNum 1
  let t ← internalNodeChildSet t t.rootPageNum 0 leftChildPageNum
  let (leftChildMaxKey, t) ← getNodeMaxKey fuel t (pageAt t leftChildPageNum)
  let t ← internalNodeKeySet t t.rootPageNum 0 leftChildMaxKey
  let t := internalRightChildSet t t.rootPageNum rightChildPageNum
  let t := nodeParentSet t leftChildPageNum t.rootPageNum
  .ok (nodeParentSet t rightChildPageNum t.rootPageNum)

/-- Shift loop of `internalNodeInsert`:
`for i := originalNumKeys; i > index; i--` copying cell `i-1` onto cell `i`. -/
def internalShiftLoop : Table → Nat → Nat → Nat → Res Table
  | t, _, 0, _ => .ok t
  | t, pn, i + 1, stop =>
    if i + 1 > stop then do
      let t2 ← internalCellCopy t pn (i + 1) i
      internalShiftLoop t2 pn i stop
    else .ok t

mutual

/-- Go `internalNodeInsert(table, parentPageNum, childPageNum)`: insert a new
child/key pair in the parent corresponding to the child. -/
def internalNodeInsert : Nat → Table → Nat → Nat → Res Table
  | 0, _, _, _ => .error .outOfFuel
  | fuel + 1, t, parentPageNum, childPageNum => do
    let (_, t) ← getPage t parentPageNum
    let (_, t) ← getPage t childPageNum
    let (childMaxKey, t) ← getNodeMaxKey (fuel + 1) t (pageAt t childPageNum)
    let index ← internalNodeFindChild (pageAt t parentPageNum) childMaxKey
    let originalNumKeys := internalNumKeysGet t parentPageNum
    if originalNumKeys ≥ internalNodeMaxCells then
      internalNodeSplitAndInsert fuel t parentPageNum childPageNum
    else
      let rightChildPageNum := internalRightChildGet t parentPageNum
      if rightChildPageNum = invalidPageNum then
        .ok (internalRightChildSet t parentPageNum childPageNum)
      else do
        let (_, t) ← getPage t rightChildPageNum
        let t := internalNumKeysSet t parentPageNum (add32 originalNumKeys 1)
        let (rcMax, t) ← getNodeMaxKey (fuel + 1) t (pageAt t rightChildPageNum)
        if childMaxKey > rcMax then do
          let t ← internalNodeChildSet t parentPageNum originalNumKeys rightChildPageNum
          let (rcMax2, t) ← getNodeMaxKey (fuel + 1) t (pageAt t rightChildPageNum)
          let t ← internalNodeKeySet t parentPageNum originalNumKeys rcMax2
          .ok (internalRightChildSet t parentPageNum childPageNum)
        else do
          let t ← internalShiftLoop t parentPageNum originalNumKeys index
          let t ← internalNodeChildSet t parentPageNum index childPageNum
          internalNodeKeySet t parentPageNum index childMaxKey
termination_by structural fuel => fuel

/-- Go `internalNodeSplitAndInsert(table, parentPageNum, childPageNum)`.
Note: where the function promotes the highest remaining cell's child to be
the old node's right child, the comment in the source announces a decrement
of the key count, but no decrement is performed. -/
def internalNodeSplitAndInsert : Nat → Table → Nat → Nat → Res Table
  | 0, _, _, _ => .error .outOfFuel
  | fuel + 1, t, parentPageNum, childPageNum => do
    let (_, t) ← getPage t parentPageNum
    let (oldMax, t) ← getNodeMaxKey (fuel + 1) t (pageAt t parentPageNum)
    let (_, t) ← getPage t childPageNum
    let (childMax, t) ← getNodeMaxKey (fuel + 1) t (pageAt t childPageNum)
    let newPageNum := getUnusedPageNum t
    let splittingRoot := isNodeRoot t parentPageNum
    let (grandParentPn, oldPageNum, t) ←
      if splittingRoot then do
        let t ← createNewRoot (fuel + 1) t newPageNum
        let (_, t) ← getPage t t.rootPageNum
        let opn ← internalNodeChildGet t t.rootPageNum 0
        let (_, t) ← getPage t opn
        Except.ok (t.rootPageNum, opn, t)
      else do
        let gp := nodeParentGet t parentPageNum
        let (_, t) ← getPage t gp
        let (_, t) ← getPage t newPageNum
        let t := initializeInternalNode t newPageNum
        Except.ok (gp, parentPageNum, t)
    let curPageNum := internalRightChildGet t oldPageNum
    let (_, t) ← getPage t curPageNum
    let t ← internalNodeInsert fuel t newPageNum curPageNum
    let t := nodeParentSet t curPageNum newPageNum
    let t := internalRightChildSet t oldPageNum invalidPageNum
    let t ← internalSplitMoveLoop fuel t oldPageNum newPageNum (internalNodeMaxCells - 1)
    let oldNumKeysNum := internalNumKeysGet t oldPageNum
    let promoted ← internalNodeChildGet t oldPageNum (sub32 oldNumKeysNum 1)
    let t := internalRightChildSet t oldPageNum promoted
    let (maxAfterSplit, t) ← getNodeMaxKey (fuel + 1) t (pageAt t oldPageNum)
    let destPageNum := if childMax < maxAfterSplit then oldPageNum else newPageNum
    let t ← internalNodeInsert fuel t destPageNum childPageNum
    let t := nodeParentSet t childPageNum destPageNum
    let (oldNodeMax, t) ← getNodeMaxKey (fuel + 1) t (pageAt t oldPageNum)
    let t ← updateInternalNodeKey t grandParentPn oldMax oldNodeMax
    if splittingRoot then .ok t
    else do
      let parentNum := nodeParentGet t oldPageNum
      let t ← internalNodeInsert fuel t parentNum newPageNum
      .ok (nodeParentSet t newPageNum (nodeParentGet t oldPageNum))
termination_by structural fuel => fuel

/-- Transfer loop of `internalNodeSplitAndInsert`:
`for i := InternalNodeMaxCells - 1; i > InternalNodeMaxCells/2; i--` moves
`child(i)` of the old node into the new node (the parent-pointer store is
duplicated in the source; both stores write the same value). -/
def internalSplitMoveLoop : Nat → Table → Nat → Nat → Nat → Res Table
  | 0, _, _, _, _ => .error .outOfFuel
  | fuel + 1, t, oldPageNum, newPageNum, i =>
    if i > internalNodeMaxCells / 2 then do
      let curPageNum ← internalNodeChildGet t oldPageNum i
      let (_, t) ← getPage t curPageNum
      let t ← internalNodeInsert fuel t newPageNum curPageNum
      let t := nodeParentSet t curPageNum newPageNum
      let oldNumKeysNum := internalNumKeysGet t oldPageNum
      let t := nodeParentSet t curPageNum newPageNum
      let t := internalNumKeysSet t oldPageNum (sub32 oldNumKeysNum 1)
      internalSplitMoveLoop fuel t oldPageNum newPageNum (i - 1)
    else .ok t
termination_by structural fuel => fuel

end

/-- Shift loop of `leafNodeInsert`:
`for i := numCells; i > cursor.cellNum; i--` copying cell `i-1` onto cell `i`. -/
def leafShiftLoop : Table → Nat → Nat → Nat → Res Table
  | t, _, 0, _ => .ok t
  | t, pn, i + 1, stop =>
    if i + 1 > stop then do
      let t2 ← leafCellCopy t pn (i + 1) pn i
      leafShiftLoop t2 pn i stop
    else .ok t

/-- One iteration of the distribution loop of `leafNodeSplitAndInsert`, at
logical index `i`: cells at logical index `≥ LeafNodeLeftSplitCount` go to
the new (right) leaf, the rest stay in the old leaf, at position
`i % LeafNodeLeftSplitCount`; the cursor's cell receives the new row, and
cells right of it are pulled from index `i-1`. -/
def leafSplitStep (t : Table) (oldPn newPn key : Nat) (row : Row) (cellNum i : Nat) :
    Res Table :=
  let destPn := if i ≥ leafNodeLeftSplitCount then newPn else oldPn
  let indexWithinNode := i % leafNodeLeftSplitCount
  do
    let _ ← leafNodeCellOff indexWithinNode
    if i = cellNum then do
      let t ← leafNodeValueWrite t destPn indexWithinNode (serializeRow row)
      leafNodeKeySet t destPn indexWithinNode key
    else if i > cellNum then
      leafCellCopy t destPn indexWithinNode oldPn (i - 1)
    else
      leafCellCopy t destPn indexWithinNode oldPn i

/-- Distribution loop of `leafNodeSplitAndInsert`:
`for i := int(LeafNodeMaxCells); i >= 0; i--`. -/
def leafSplitLoop : Table → Nat → Nat → Nat → Row → Nat → Nat → Res Table
  | t, oldPn, newPn, key, row, cellNum, 0 => leafSplitStep t oldPn newPn key row cellNum 0
  | t, oldPn, newPn, key, row, cellNum, i + 1 => do
    let t2 ← leafSplitStep t oldPn newPn key row cellNum (i + 1)
    leafSplitLoop t2 oldPn newPn key row cellNum i

/-- Go `leafNodeSplitAndInsert(cursor, key, value)`. -/
def leafNodeSplitAndInsert (fuel : Nat) (t : Table) (cursor : Cursor) (key : Nat)
    (row : Row) : Res Table := do
  let (_, t) ← getPage t cursor.pageNum
  let (oldMax, t) ← getNodeMaxKey fuel t (pageAt t cursor.pageNum)
  let newPageNum := getUnusedPageNum t
  let (_, t) ← getPage t newPageNum
  let t := initializeLeafNode t newPageNum
  let t := nodeParentSet t newPageNum (nodeParentGet t cursor.pageNum)
  let t := leafNextLeafSet t newPageNum (leafNextLeafGet t cursor.pageNum)
  let t := leafNextLeafSet t cursor.pageNum newPageNum
  let t ← leafSplitLoop t cursor.pageNum newPageNum key row cursor.cellNum leafNodeMaxCells
  let t := leafNumCellsSet t cursor.pageNum leafNodeLeftSplitCount
  let t := leafNumCellsSet t newPageNum leafNodeRightSplitCount
  if isNodeRoot t cursor.pageNum then createNewRoot fuel t newPageNum
  else do
    let parentPageNum := nodeParentGet t cursor.pageNum
    let (newMax, t) ← getNodeMaxKey fuel t (pageAt t cursor.pageNum)
    let (_, t) ← getPage t parentPageNum
    let t ← updateInternalNodeKey t parentPageNum oldMax newMax
    internalNodeInsert fuel t parentPageNum newPageNum

/-- Go `leafNodeInsert(cursor, key, value)`. -/
def leafNodeInsert (fuel : Nat) (t : Table) (cursor : Cursor) (key : Nat) (row : Row) :
    Res Table := do
  let (_, t) ← getPage t cursor.pageNum
  let numCells := leafNumCellsGet t cursor.pageNum
  if numCells ≥ leafNodeMaxCells then
    leafNodeSplitAndInsert fuel t cursor key row
  else do
    let t ←
      if cursor.cellNum < numCells then leafShiftLoop t cursor.pageNum numCells cursor.cellNum
      else Except.ok t
    let t := leafNumCellsSet t cursor.pageNum (add32 numCells 1)
    let t ← leafNodeKeySet t cursor.pageNum cursor.cellNum key
    leafNodeValueWrite t cursor.pageNum cursor.cellNum (serializeRow row)

/-! Statement execution, from part_002. -/

/-- Go `executeInsert(stmt, table)`.  The duplicate-key check reads
`leafNodeNumCells(node)` and `leafNodeKey(node, cursor.cellNum)` where `node`
is the ROOT page fetched at the top of the function, not the leaf page the
cursor points at. -/
def executeInsert (fuel : Nat) (t : Table) (row : Row) : Res (Option EngineErr × Table) := do
  let (_, t) ← getPage t t.rootPageNum
  let numCells := leafNumCellsGet t t.rootPageNum
  let keyToInsert := row.id
  let (cursor, t) ← tableFind fuel t keyToInsert
  let dup ←
    if cursor.cellNum < numCells then do
      let keyAtIndex ← leafNodeKeyGet t t.rootPageNum cursor.cellNum
      Except.ok (decide (keyAtIndex = keyToInsert))
    else Except.ok false
  if dup then .ok (some .duplicateKey, t)
  else do
    let t ← leafNodeInsert fuel t cursor keyToInsert row
    .ok (none, t)

/-- Loop of Go `executeSelect`: while not end-of-table, deserialize and emit
the current row, then advance. -/
def selectLoop : Nat → Table → Cursor → List Row → Res (List Row × Table)
  | 0, _, _, _ => .error .outOfFuel
  | fuel + 1, t, c, acc =>
    if c.endOfTable then .ok (acc.reverse, t)
    else do
      let (off, t) ← cursorValue t c
      let row := deserializeRowAt (pageAt t c.pageNum) off
      let (c, t) ← cursorAdvance t c
      selectLoop fuel t c (row :: acc)

/-- Go `executeSelect(stmt, table)`: the returned list holds the rows printed
by `cli.PrintRow`, in emission order. -/
def executeSelect (fuel : Nat) (t : Table) : Res (List Row × Table) := do
  let (cursor, t) ← tableStart fuel t
  selectLoop fuel t cursor []

/-- Go `internalNodeFindKey(node, key)`: the binary search loop is textually
the one of `internalNodeFindChild`, followed by an exact-match check at the
final index. -/
def internalNodeFindKey (p : Page) (key : Nat) : Res (Nat × Bool) := do
  let minIdx ← findChildLoop 64 p key 0 (getU32 p internalNodeNumKeysOffset)
  let off ← internalNodeCellOff minIdx
  let keyToRight := getU32 p (off + internalNodeChildSize)
  if keyToRight ≠ key then .ok (0, false) else .ok (minIdx, true)

/-- Shift loop of `executeDelete`:
`for i := cursor.cellNum + 1; i < numCells; i++` copying cell `i` onto `i-1`.
The counter (initially `numCells`, so it never runs out before the loop guard
fails) makes the recursion structural. -/
def deleteShiftLoop : Table → Nat → Nat → Nat → Nat → Res Table
  | t, _, _, _, 0 => .ok t
  | t, pn, i, numCells, counter + 1 =>
    if i < numCells then do
      let t2 ← leafCellCopy t pn (i - 1) pn i
      deleteShiftLoop t2 pn (i + 1) numCells counter
    else .ok t

/-- Ancestor walk of `executeDelete`: while the current node is not the root,
look the deleted key up among the parent's separators and overwrite it with
the leaf's new maximum. -/
def deleteLadder : Nat → Table → Nat → Nat → Nat → Res (Option EngineErr × Table)
  | 0, _, _, _, _ => .error .outOfFuel
  | fuel + 1, t, pn, keyToDelete, newMaxKey =>
    if isNodeRoot t pn then .ok (none, t)
    else do
      let parentPn := nodeParentGet t pn
      let (parent, t) ← getPage t parentPn
      let (idx, found) ← internalNodeFindKey parent keyToDelete
      if found then do
        let t ← internalNodeKeySet t parentPn idx newMaxKey
        deleteLadder fuel t parentPn keyToDelete newMaxKey
      else .ok (none, t)

/-- Go `executeDelete(stmt, table)`.  After the removal the new maximum is
read from `leafNodeKey(node, numCells-2)` where `numCells` is the count from
before the removal and the subtraction is on `uint32`.  (The source also
prints the cursor position, the node and the deleted row; those debug reads
stay inside the page and are not modelled.) -/
def executeDelete (fuel : Nat) (t : Table) (keyToDelete : Nat) :
    Res (Option EngineErr × Table) := do
  let (cursor, t) ← tableFind fuel t keyToDelete
  let (_, t) ← getPage t cursor.pageNum
  let numCells := leafNumCellsGet t cursor.pageNum
  if cursor.cellNum ≥ numCells then .ok (some (.keyDoesNotExist keyToDelete), t)
  else do
    let keyAtIndex ← leafNodeKeyGet t cursor.pageNum cursor.cellNum
    if keyAtIndex ≠ keyToDelete then .ok (some (.keyDoesNotExist keyToDelete), t)
    else do
      let (_, t) ← cursorValue t cursor
      let t ← deleteShiftLoop t cursor.pageNum (cursor.cellNum + 1) numCells numCells
      let t := leafNumCellsSet t cursor.pageNum (sub32 numCells 1)
      let newMaxKey ← leafNodeKeyGet t cursor.pageNum (sub32 numCells 2)
      if keyToDelete < newMaxKey then .ok (none, t)
      else deleteLadder fuel t cursor.pageNum keyToDelete newMaxKey

/-! Opening a database and running statement sequences. -/

/-- The pager after `pagerOpen` on a fresh (empty) database file: the slot
array holds `tableMaxPages` nil entries. -/
def pagerOpenEmpty : Pager :=
  { fileBytes := fun _ => 0, fileLength := 0, numPages := 0,
    pages := List.replicate tableMaxPages none }

/-- Go `dbOpen` on a fresh database file: page 0 becomes an empty leaf root. -/
def dbOpenEmpty : Res Table :=
  let t : Table := { pager := pagerOpenEmpty, rootPageNum := 0 }
  if pagerOpenEmpty.numPages = 0 then do
    let (_, t) ← getPage t 0
    let t := initializeLeafNode t 0
    .ok (setNodeRoot t 0 true)
  else .ok t

/-- The row a test input line `insert k user<k> …` boils down to for the
purposes of the tree: only the id participates in keys and routing. -/
def rowOf (k : Nat) : Row := { id := k, username := [], email := [] }

/-- Sum of the state's page contents.  The condition
`tableCheck t = tableCheck t` is trivially true; evaluating it forces the
state, which keeps kernel evaluation of the long concrete runs below
incremental (it does not alter any result). -/
def tableCheck (t : Table) : Nat :=
  t.pager.pages.foldl (fun a op => a + (op.getD 0) % 1024) t.pager.numPages

/-- Run `executeInsert` for each key in turn, collecting the statement-level
results (the shell prints `Executed.` for `none` and `Error: …` otherwise). -/
def insertSeq (fuel : Nat) : Table → List Nat → Res (List (Option EngineErr) × Table)
  | t, [] => .ok ([], t)
  | t, k :: ks =>
    if tableCheck t = tableCheck t then do
      let (e, t) ← executeInsert fuel t (rowOf k)
      let (es, t) ← insertSeq fuel t ks
      .ok (e :: es, t)
    else do
      let (e, t) ← executeInsert fuel t (rowOf k)
      let (es, t) ← insertSeq fuel t ks
      .ok (e :: es, t)

/-- Open a fresh database and insert the given keys in order. -/
def runInserts (fuel : Nat) (ks : List Nat) : Res (List (Option EngineErr) × Table) := do
  let t ← dbOpenEmpty
  insertSeq fuel t ks

/-- Key ids emitted by a full `select` after inserting `ks` from scratch. -/
def selectIdsAfter (fuel : Nat) (ks : List Nat) : Res (List Nat) := do
  let (_, t) ← runInserts fuel ks
  let (rows, _) ← executeSelect fuel t
  .ok (rows.map Row.id)

/-! The command-line helpers, from `src/unnamed/part_003` (`cli.CleanInput`,
`cli.PrepareStatement`) and their identical copies in `src/main.go`
(`cleanInput`, `prepareStatement`), plus the dispatch step of the `main`
loop.  Strings are byte lists; `strings.TrimSpace`, `strings.ToLower` and
`strings.EqualFold` are modelled on ASCII input. -/

/-- Whether a byte is ASCII white space (`unicode.IsSpace` on ASCII:
tab, newline, vertical tab, form feed, carriage return, space). -/
def isSpaceByte (b : Nat) : Bool :=
  b = 9 || b = 10 || b = 11 || b = 12 || b = 13 || b = 32

/-- Go `strings.TrimSpace` on ASCII bytes: drop white space from both ends. -/
def trimSpace (s : List Nat) : List Nat :=
  ((s.dropWhile isSpaceByte).reverse.dropWhile isSpaceByte).reverse

/-- Go `strings.ToLower` on one ASCII byte: `'A'..'Z'` gain 32. -/
def toLowerByte (b : Nat) : Nat := if 65 ≤ b ∧ b ≤ 90 then b + 32 else b

/-- Go `cleanInput` / `cli.CleanInput`: `strings.TrimSpace` then
`strings.ToLower`. -/
def cleanInput (s : List Nat) : List Nat := (trimSpace s).map toLowerByte

/-- Go `strings.EqualFold` on ASCII bytes: equal after lowering case. -/
def equalFoldBytes (a b : List Nat) : Bool :=
  a.map toLowerByte = b.map toLowerByte

/-- The bytes of the literal `"insert"`. -/
def insertLit : List Nat := [105, 110, 115, 101, 114, 116]

/-- The bytes of the literal `"select"`. -/
def selectLit : List Nat := [115, 101, 108, 101, 99, 116]

/-- The bytes of the literal `".exit"`. -/
def exitLit : List Nat := [46, 101, 120, 105, 116]

/-- White-space-separated fields of a byte list (`cur` holds the bytes of the
current field, reversed); this is how `fmt.Sscanf` splits its `%s` operands. -/
def splitFieldsAux : List Nat → List Nat → List (List Nat)
  | [], cur => if cur.isEmpty then [] else [cur.reverse]
  | b :: rest, cur =>
    if isSpaceByte b then
      if cur.isEmpty then splitFieldsAux rest []
      else cur.reverse :: splitFieldsAux rest []
    else splitFieldsAux rest (b :: cur)

/-- The white-space-separated fields of a byte list. -/
def splitFields (s : List Nat) : List (List Nat) := splitFieldsAux s []

/-- Whether a byte is an ASCII digit. -/
def isDigitByte (b : Nat) : Bool := 48 ≤ b && b ≤ 57

/-- Value of a string of ASCII digits. -/
def digitsVal (l : List Nat) : Nat := l.foldl (fun a b => a * 10 + (b - 48)) 0

/-- A prepared statement (`types.Statement`): an insert carrying its row, or
a select. -/
inductive Statement where
  | insertRow (row : Row) : Statement
  | select : Statement
deriving DecidableEq, Repr

/-- Model of `fmt.Sscanf(text, "insert %d %s %s", &id, &username, &email)`:
the first field must be the literal `insert`, the second a decimal `uint32`,
and two more fields must be present (fewer operands, a malformed number or an
overflow make `Sscanf` return an error); trailing input is ignored. -/
def scanInsert (text : List Nat) : Except EngineErr Row :=
  match splitFields text with
  | w :: idTok :: u :: e :: _ =>
    if w ≠ insertLit then .error .scanErr
    else if idTok.isEmpty || !idTok.all isDigitByte then .error .scanErr
    else if digitsVal idTok ≥ u32Size then .error .scanErr
    else .ok { id := digitsVal idTok, username := u, email := e }
  | _ => .error .scanErr

/-- Go `prepareStatement` / `cli.PrepareStatement`: the unguarded slice
`text[:6]` panics on lines shorter than 6 bytes; otherwise a case-insensitive
match on `insert` leads into `Sscanf` and the length checks, a
case-insensitive match of the whole line on `select` yields a select, and
anything else is an unknown statement. -/
def prepareStatement (text : List Nat) : Res (Except EngineErr Statement) :=
  if text.length < 6 then .error .indexOutOfRange
  else if equalFoldBytes (text.take 6) insertLit then
    match scanInsert text with
    | .error e => .ok (.error e)
    | .ok row =>
      if row.username.length > usernameSize then .ok (.error .stringTooLong)
      else if row.email.length > emailSize then .ok (.error .stringTooLong)
      else .ok (.ok (.insertRow row))
  else if equalFoldBytes text selectLit then .ok (.ok .select)
  else .ok (.error .unknownStatement)

/-- What one iteration of the `main` shell loop does with an input line
before executing anything: a meta command (first byte `'.'`) or a prepared
statement. -/
inductive ShellAction where
  | meta (cmd : List Nat) : ShellAction
  | statement (s : Except EngineErr Statement) : ShellAction

/-- One dispatch step of the `main` loop: clean the line, then branch on
`text[0]` (which panics on an empty cleaned line) and prepare the statement
(whose `text[:6]` panics on short lines). -/
def shellStep (raw : List Nat) : Res ShellAction :=
  match cleanInput raw with
  | [] => .error .indexOutOfRange
  | b :: bs =>
    if b = 46 then .ok (.meta (b :: bs))
    else do
      let s ← prepareStatement (b :: bs)
      .ok (.statement s)

/-! Concrete states and inputs used by the theorems below. -/

/-- A table over a fresh pager (no page loaded yet). -/
def freshTable : Table := { pager := pagerOpenEmpty, rootPageNum := 0 }

/-- Fourteen distinct keys filling the root leaf and splitting it, followed
by a repeat of the first key. -/
def c1seq : List Nat := (List.range 14).map (fun x => x + 1) ++ [1]

/-- The statement-level results of inserting `c1seq` from scratch, paired
with the ids a full select emits afterwards. -/
def c1run : Res (List (Option EngineErr) × List Nat) := do
  let (es, t) ← runInserts 100 c1seq
  let (rows, _) ← executeSelect 100 t
  .ok (es, rows.map Row.id)

/-- The table after inserting the single key 5 into a fresh database: its
root is a leaf with exactly one cell. -/
def tDel : Table :=
  match runInserts 100 [5] with
  | .ok (_, t) => t
  | .error _ => freshTable

/-- The root page of `tDel`. -/
def pDel : Page := pageAt tDel 0

/-- The bytes of the input line `"  INSERT 7 Carol CAROL@X.Y  "` (with
upper-case letters and surrounding white space). -/
def sEx : List Nat :=
  [32, 32, 73, 78, 83, 69, 82, 84, 32, 55, 32, 67, 97, 114, 111, 108, 32,
   67, 65, 82, 79, 76, 64, 88, 46, 89, 32, 32]

/-- The bytes of `"sel"`. -/
def selShort : List Nat := [115, 101, 108]

/-- The insert row parsed from the cleaned form of `sEx`. -/
def rowEx : Row :=
  { id := 7, username := [99, 97, 114, 111, 108],
    email := [99, 97, 114, 111, 108, 64, 120, 46, 121] }

/-! Sortedness of node pages, used to state the search theorems. -/

/-- The key stored in leaf cell `i` (the 4 bytes at the cell's offset); for
`i ≤ 12` this is exactly what `leafNodeKey(node, i)` reads. -/
def leafKeyAt (p : Page) (i : Nat) : Nat :=
  getU32 p (leafNodeHeaderSize + i * leafNodeCellSize)

/-- The separator key stored in internal cell `i`; for small `i` this is
exactly what `internalNodeKey(node, i)` reads. -/
def internalKeyAt (p : Page) (i : Nat) : Nat :=
  getU32 p (internalNodeHeaderSize + i * internalNodeCellSize + internalNodeChildSize)

/-- Checks that a leaf page holds at most 13 cells with strictly increasing
keys. -/
def leafSortedB (p : Page) : Bool :=
  decide (getU32 p leafNodeNumCellsOffset ≤ leafNodeMaxCells) &&
  (List.range (getU32 p leafNodeNumCellsOffset)).all (fun j =>
    (List.range j).all (fun i => leafKeyAt p i < leafKeyAt p j))

/-- A page that, when it is a leaf, holds sorted keys. -/
def pageLeafSorted (p : Page) : Prop :=
  chunk p nodeTypeOffset 1 = nodeLeaf → leafSortedB p = true

/-- The state invariant of the search theorems: the slot table has its full
`tableMaxPages` length, every populated buffer that is a leaf is sorted, and
every page of the backing file that is a leaf is sorted. -/
def tableLeafInv (t : Table) : Prop :=
  t.pager.pages.length = tableMaxPages ∧
  (∀ pn p, t.pager.pages.getD pn none = some p → pageLeafSorted p) ∧
  (∀ pn, pageLeafSorted (chunk (t.pager.fileBytes pn) 0 pageSize))

/-- Decidable slot-table part of `tableLeafInv` (for concrete witnesses). -/
def tableLeafInvB (t : Table) : Bool :=
  decide (t.pager.pages.length = tableMaxPages) &&
  t.pager.pages.all (fun op =>
    match op with
    | some p => if chunk p nodeTypeOffset 1 = nodeLeaf then leafSortedB p else true
    | none => true)

/-- The row value stored in leaf cell `i` (the 291 bytes after the key). -/
def leafValueAt (p : Page) (i : Nat) : Nat :=
  chunk p (leafNodeHeaderSize + i * leafNodeCellSize + leafNodeKeySize) leafNodeValueSize

/-- The key of logical cell `j` of a full leaf being split while inserting
`key` at position `cellNum`: position `cellNum` carries the new key, cells
right of it come shifted up by one. -/
def logicalKeyAt (p : Page) (key cellNum j : Nat) : Nat :=
  if j = cellNum then w32 key
  else if cellNum < j then leafKeyAt p (j - 1)
  else leafKeyAt p j

/-- The row value of logical cell `j` under the same numbering. -/
def logicalValueAt (p : Page) (row : Row) (cellNum j : Nat) : Nat :=
  if j = cellNum then leBytes (serializeRow row) leafNodeValueSize
  else if cellNum < j then leafValueAt p (j - 1)
  else leafValueAt p j

/-- A full root leaf holding 13 cells with keys 2, 4, ..., 26 (zero row
values), used to witness the split theorem. -/
def fullLeafPage : Page :=
  let p := putByte zeroPage nodeTypeOffset nodeLeaf
  let p := putByte p isRootOffset 1
  let p := putU32 p leafNodeNumCellsOffset leafNodeMaxCells
  (List.range leafNodeMaxCells).foldl
    (fun q i => putU32 q (leafNodeHeaderSize + i * leafNodeCellSize) (2 * i + 2)) p

/-- A fresh table whose root is the full leaf `fullLeafPage`. -/
def tC4Pager : Pager :=
  { fileBytes := fun _ => 0
    fileLength := 0
    numPages := 1
    pages := (List.replicate tableMaxPages (none : Option Page)).set 0 (some fullLeafPage) }

def tC4 : Table := { pager := tC4Pager, rootPageNum := 0 }

/-- A concrete internal page: one separator key 42 over child page 2, right
child page 3 (used to witness the child search). -/
def pInt : Page :=
  let p := putByte zeroPage nodeTypeOffset nodeInternal
  let p := putU32 p internalNodeNumKeysOffset 1
  let p := putU32 p internalNodeRightChildOffset 3
  let p := putU32 p internalNodeHeaderSize 2
  putU32 p (internalNodeHeaderSize + internalNodeChildSize) 42

/-! Theorems. -/

set_option maxRecDepth 100000

/-- `pow256 n` is the base-256 place value `256 ^ n`. -/
theorem pow256_eq (n : Nat) : pow256 n = 256 ^ n := by
  show 1 <<< (8 * n) = 256 ^ n
  rw [Nat.shiftLeft_eq, one_mul, pow_mul]
  norm_num

/-- Place values are positive. -/
theorem pow256_pos (n : Nat) : 0 < pow256 n := by
  rw [pow256_eq]; positivity

/-- A chunk read is always below the place value of its width. -/
theorem chunk_lt (p off n : Nat) : chunk p off n < pow256 n :=
  Nat.mod_lt _ (pow256_pos n)

/-- Binding a normal result applies the continuation. -/
theorem ok_bind {α β : Type} (a : α) (f : α → Res β) :
    ((Except.ok a : Res α) >>= f) = f a := rfl

/-- A fault short-circuits every continuation. -/
theorem error_bind {α β : Type} (e : Fault) (f : α → Res β) :
    ((Except.error e : Res α) >>= f) = .error e := rfl

/-- Reading any slot of an all-`none` slot table gives `none`. -/
theorem getD_replicate_none (n i : Nat) :
    (List.replicate n (none : Option Page)).getD i none = none := by
  induction n generalizing i with
  | zero => simp
  | succ n ih =>
    cases i with
    | zero => simp [List.replicate]
    | succ i => simp [List.replicate, ih i]

/-- No slot of the fresh table holds a buffer. -/
theorem freshTable_slots (i p : Nat) :
    freshTable.pager.pages.getD i none = some p → p < pow256 pageSize := by
  intro h
  rw [show freshTable.pager.pages = List.replicate tableMaxPages none from rfl,
    getD_replicate_none] at h
  exact absurd h (by simp)

/-- C7: part_002's `getPage(n)` terminates the process with the out-of-range
fault exactly when `n ≥ tableMaxPages = 100`; for `n < 100` it returns a page
buffer (a number below `256 ^ 4096`, i.e. 4096 bytes) without faulting,
provided every populated pager slot holds a 4096-byte buffer. -/
theorem getPage_range_spec (t : Table) (n : Nat)
    (hb : ∀ i p, t.pager.pages.getD i none = some p → p < pow256 pageSize) :
    (tableMaxPages ≤ n → getPage t n = .error .pageOutOfBounds) ∧
    (n < tableMaxPages → ∃ p t2, getPage t n = .ok (p, t2) ∧ p < pow256 pageSize) := by
  constructor
  · intro h
    simp [getPage, h]
  · intro h
    have hn : ¬ n ≥ tableMaxPages := Nat.not_le.mpr h
    unfold getPage
    rw [if_neg hn]
    rcases hs : t.pager.pages.getD n none with _ | p
    · refine ⟨_, _, rfl, ?_⟩
      split <;> split
      · exact chunk_lt _ _ _
      · exact pow256_pos _
      · exact chunk_lt _ _ _
      · exact pow256_pos _
    · exact ⟨p, t, rfl, hb n p hs⟩

/-- Witness for C7 at the fresh table: `getPage 100` faults out of range and
`getPage 3` returns a buffer. -/
theorem getPage_range_spec_witness :
    (tableMaxPages ≤ 100 → getPage freshTable 100 = .error .pageOutOfBounds) ∧
    (3 < tableMaxPages →
      ∃ p t2, getPage freshTable 3 = .ok (p, t2) ∧ p < pow256 pageSize) :=
  ⟨(getPage_range_spec freshTable 100 freshTable_slots).1,
   (getPage_range_spec freshTable 3 freshTable_slots).2⟩

/-- `toLower` of a byte is never an upper-case ASCII letter. -/
theorem toLowerByte_not_upper (b : Nat) : ¬(65 ≤ toLowerByte b ∧ toLowerByte b ≤ 90) := by
  unfold toLowerByte; split <;> omega

/-- Lowering case twice is lowering case once. -/
theorem toLowerByte_idem (b : Nat) : toLowerByte (toLowerByte b) = toLowerByte b := by
  unfold toLowerByte; split <;> (try split) <;> omega

/-- Every byte of every white-space-separated field comes from the split
input (or from the accumulator). -/
theorem splitFieldsAux_subset (s : List Nat) : ∀ cur f, f ∈ splitFieldsAux s cur →
    ∀ b ∈ f, b ∈ s ∨ b ∈ cur := by
  induction s with
  | nil =>
    intro cur f hf b hb
    unfold splitFieldsAux at hf
    split at hf
    · simp at hf
    · rw [List.mem_singleton] at hf
      subst hf
      exact Or.inr (List.mem_reverse.mp hb)
  | cons a rest ih =>
    intro cur f hf b hb
    unfold splitFieldsAux at hf
    split at hf
    · split at hf
      · rcases ih [] f hf b hb with h | h
        · exact Or.inl (List.mem_cons_of_mem a h)
        · simp at h
      · rcases List.mem_cons.mp hf with rfl | hf2
        · exact Or.inr (List.mem_reverse.mp hb)
        · rcases ih [] f hf2 b hb with h | h
          · exact Or.inl (List.mem_cons_of_mem a h)
          · simp at h
    · rcases ih (a :: cur) f hf b hb with h | h
      · exact Or.inl (List.mem_cons_of_mem a h)
      · rcases List.mem_cons.mp h with rfl | h2
        · exact Or.inl (List.mem_cons_self _ _)
        · exact Or.inr h2

/-- Every byte of every field of `splitFields s` is a byte of `s`. -/
theorem splitFields_subset (s f : List Nat) (hf : f ∈ splitFields s) :
    ∀ b ∈ f, b ∈ s := by
  intro b hb
  rcases splitFieldsAux_subset s [] f hf b hb with h | h
  · exact h
  · simp at h

/-- The username and email a successful `Sscanf` produces are fields of the
scanned text. -/
theorem scanInsert_fields (text : List Nat) (row : Row)
    (h : scanInsert text = .ok row) :
    row.username ∈ splitFields text ∧ row.email ∈ splitFields text := by
  unfold scanInsert at h
  split at h
  next w idTok u e rest heq =>
    split at h
    · simp at h
    split at h
    · simp at h
    split at h
    · simp at h
    · injection h with h2
      subst h2
      rw [heq]
      constructor <;> simp
  next => simp at h

/-- A line prepared into an insert statement went through `Sscanf`
successfully. -/
theorem prepareStatement_insert_inv (text : List Nat) (row : Row)
    (h : prepareStatement text = .ok (.ok (.insertRow row))) :
    scanInsert text = .ok row := by
  unfold prepareStatement at h
  split at h
  · simp at h
  split at h
  · split at h
    next e heq => simp at h
    next r heq =>
      split at h
      · simp at h
      split at h
      · simp at h
      · simp at h
        rw [heq, h]
  · split at h <;> simp at h

/-- C8: every input line is lowercased in full before dispatch: the cleaned
line contains no upper-case ASCII letter; any insert row prepared from a
cleaned line stores only lowercase bytes in its username and email (so every
later select emits the lowercased form); and the `.exit` meta-command check,
which `strings.EqualFold` makes case-insensitive, accepts the cleaned line
exactly when its lowercased form is `.exit`. -/
theorem cleanInput_lowercases_pipeline (s : List Nat) :
    (∀ b ∈ cleanInput s, ¬(65 ≤ b ∧ b ≤ 90)) ∧
    (∀ row, prepareStatement (cleanInput s) = .ok (.ok (.insertRow row)) →
      (∀ b ∈ row.username, ¬(65 ≤ b ∧ b ≤ 90)) ∧
      (∀ b ∈ row.email, ¬(65 ≤ b ∧ b ≤ 90))) ∧
    (equalFoldBytes (cleanInput s) exitLit = true ↔ cleanInput s = exitLit) := by
  have hmap : ∀ b ∈ cleanInput s, ¬(65 ≤ b ∧ b ≤ 90) := by
    intro b hb
    rcases List.mem_map.mp hb with ⟨a, _, rfl⟩
    exact toLowerByte_not_upper a
  refine ⟨hmap, ?_, ?_⟩
  · intro row h
    have hsc := prepareStatement_insert_inv _ _ h
    have hmem := scanInsert_fields _ _ hsc
    exact ⟨fun b hb => hmap b (splitFields_subset _ _ hmem.1 b hb),
           fun b hb => hmap b (splitFields_subset _ _ hmem.2 b hb)⟩
  · have h1 : (cleanInput s).map toLowerByte = cleanInput s := by
      unfold cleanInput
      rw [List.map_map, show toLowerByte ∘ toLowerByte = toLowerByte from
        funext toLowerByte_idem]
    have h2 : exitLit.map toLowerByte = exitLit := by rfl
    simp only [equalFoldBytes, h1, h2, decide_eq_true_eq]

/-- Witness for C8 at the line `"  INSERT 7 Carol CAROL@X.Y  "`: the row it
prepares stores no upper-case byte in either field. -/
theorem cleanInput_lowercases_pipeline_witness :
    (∀ b ∈ rowEx.username, ¬(65 ≤ b ∧ b ≤ 90)) ∧
    (∀ b ∈ rowEx.email, ¬(65 ≤ b ∧ b ≤ 90)) :=
  (cleanInput_lowercases_pipeline sEx).2.1 rowEx (by rfl)

/-- C9: the statement path is not total: on an empty cleaned line the shell
loop's `text[0]` panics with an index-out-of-range fault, and on the cleaned
line `"sel"` (not a meta command, shorter than 6 bytes) `prepareStatement`'s
`text[:6]` panics, instead of reporting an unknown statement. -/
theorem statement_path_not_total :
    shellStep [] = .error .indexOutOfRange ∧
    shellStep selShort = .error .indexOutOfRange :=
  ⟨rfl, rfl⟩

/-- C10: deleting the only cell of a leaf faults: when the cursor lands on
cell 0 of a leaf whose cell count is 1 and whose cell-0 key is the deleted
key, `executeDelete` reads `leafNodeKey(node, numCells-2)`; the `uint32`
subtraction underflows to 4294967295, the cell offset wraps to 4294967015,
the slice bounds check fails, and the operation faults rather than
completing or returning an error. -/
theorem executeDelete_last_cell_faults (fuel : Nat) (t t1 : Table) (c : Cursor)
    (k : Nat) (p : Page)
    (hfind : tableFind fuel t k = .ok (c, t1))
    (hpn : c.pageNum < tableMaxPages)
    (hslot : t1.pager.pages.getD c.pageNum none = some p)
    (hcell : c.cellNum = 0)
    (hnum : getU32 p leafNodeNumCellsOffset = 1)
    (hkey : getU32 p leafNodeHeaderSize = k) :
    executeDelete fuel t k = .error .sliceOutOfRange := by
  have hget : getPage t1 c.pageNum = .ok (p, t1) := by
    unfold getPage
    rw [if_neg (Nat.not_le.mpr hpn), hslot]
  have hpage : pageAt t1 c.pageNum = p := by
    unfold pageAt
    rw [hslot]
    rfl
  have henum : leafNumCellsGet t1 c.pageNum = 1 := by
    unfold leafNumCellsGet rU32
    rw [hpage]
    exact hnum
  have ekey : rU32 t1 c.pageNum 14 = k := by
    unfold rU32
    rw [hpage]
    exact hkey
  have e1 : leafNodeKeyGet t1 c.pageNum 0 = Except.ok (rU32 t1 c.pageNum 14) := rfl
  have e2 : cursorValue t1 c = Except.ok (18, t1) := by
    unfold cursorValue
    rw [hget, ok_bind, hcell]
    rfl
  have e3 : deleteShiftLoop t1 c.pageNum (0 + 1) 1 1 = Except.ok t1 := rfl
  have e4 : leafNodeKeyGet (leafNumCellsSet t1 c.pageNum (sub32 1 1)) c.pageNum
      (sub32 1 2) = Except.error Fault.sliceOutOfRange := rfl
  unfold executeDelete
  rw [hfind, ok_bind]
  try dsimp only
  rw [hget, ok_bind]
  try dsimp only
  rw [hcell, henum]
  rw [if_neg (by decide : ¬ ((0 : Nat) ≥ 1))]
  rw [e1, ok_bind, ekey]
  rw [if_neg (show ¬ (k ≠ k) from fun h2 => h2 rfl)]
  rw [e2, ok_bind]
  try dsimp only
  rw [e3, ok_bind]
  try dsimp only
  rw [e4, error_bind]

/-- Witness for C10: after inserting the single key 5, deleting it faults
with the out-of-range slice. -/
theorem executeDelete_last_cell_faults_witness :
    executeDelete 100 tDel 5 = .error .sliceOutOfRange :=
  executeDelete_last_cell_faults 100 tDel tDel ⟨0, 0, false⟩ 5 pDel (by rfl)
    (by decide) (by rfl) (by rfl) (by rfl) (by rfl)

set_option maxHeartbeats 10000000

/-- C1: the duplicate-key check fails once the root is no longer a leaf:
inserting the distinct keys 1..14 (which splits the root) and then key 1
again reports no error for any of the 15 inserts — the repeat of key 1
included — and the following select emits id 1 twice.  The check compares
the new key against `leafNodeKey` of the ROOT page instead of the leaf the
cursor found, so the duplicate is not detected, the tree is modified, and
no "duplicate key" error is returned. -/
theorem executeInsert_duplicate_not_detected :
    c1run = .ok (List.replicate 15 none,
      [1, 1, 2, 3, 4, 5, 6, 7, 8, 9, 10, 11, 12, 13, 14]) := by rfl

/-- For cell numbers up to 12 the leaf cell offset computation does not wrap
and the slice stays inside the page. -/
theorem leafNodeCellOff_ok (i : Nat) (h : i ≤ 12) :
    leafNodeCellOff i = .ok (leafNodeHeaderSize + i * leafNodeCellSize) := by
  interval_cases i <;> rfl

/-- For cell numbers up to 2 the internal cell offset computation does not
wrap and the slice stays inside the page. -/
theorem internalNodeCellOff_ok (i : Nat) (h : i ≤ 2) :
    internalNodeCellOff i = .ok (internalNodeHeaderSize + i * internalNodeCellSize) := by
  interval_cases i <;> rfl

/-- The binary search of `leafNodeFind` returns the first position whose key
is at least the target: by induction on the fuel, over any window
`[lo, hi)` whose outside is already settled. -/
theorem leafFindLoop_spec (fuel : Nat) :
    ∀ lo hi p key N, hi - lo < fuel → lo ≤ hi → hi ≤ N → N ≤ 13 →
    (∀ i j, i < j → j < N → leafKeyAt p i < leafKeyAt p j) →
    (∀ i, i < lo → leafKeyAt p i < key) →
    (∀ i, hi ≤ i → i < N → key ≤ leafKeyAt p i) →
    ∃ r, leafFindLoop fuel p key lo hi = .ok r ∧ lo ≤ r ∧ r ≤ hi ∧
      (∀ i, i < r → leafKeyAt p i < key) ∧
      (r < N → key ≤ leafKeyAt p r) := by
  induction fuel with
  | zero => intro lo hi p key N hfuel; omega
  | succ fuel ih =>
    intro lo hi p key N hfuel hlohi hhiN hN13 hsorted hlow hhigh
    unfold leafFindLoop
    by_cases heq : hi = lo
    · subst heq
      rw [if_pos rfl]
      exact ⟨hi, rfl, Nat.le_refl hi, Nat.le_refl hi, hlow,
        fun hlt => hhigh hi (Nat.le_refl hi) hlt⟩
    · rw [if_neg heq]
      try dsimp only
      have hlt : lo < hi := by omega
      have hmid12 : (hi - lo) / 2 + lo ≤ 12 := by omega
      rw [leafNodeCellOff_ok _ hmid12, ok_bind]
      rw [show getU32 p (leafNodeHeaderSize + ((hi - lo) / 2 + lo) * leafNodeCellSize)
        = leafKeyAt p ((hi - lo) / 2 + lo) from rfl]
      have hmidlt : (hi - lo) / 2 + lo < hi := by omega
      by_cases hkeq : key = leafKeyAt p ((hi - lo) / 2 + lo)
      · rw [if_pos hkeq]
        refine ⟨(hi - lo) / 2 + lo, rfl, by omega, by omega, ?_, fun _ => le_of_eq hkeq⟩
        intro i hi2
        by_cases hilo : i < lo
        · exact hlow i hilo
        · exact hkeq ▸ hsorted i _ (by omega) (by omega)
      · rw [if_neg hkeq]
        by_cases hklt : key < leafKeyAt p ((hi - lo) / 2 + lo)
        · rw [if_pos hklt]
          have hhigh2 : ∀ i, (hi - lo) / 2 + lo ≤ i → i < N → key ≤ leafKeyAt p i := by
            intro i hge hiN
            rcases Nat.eq_or_lt_of_le hge with rfl | hgt
            · exact Nat.le_of_lt hklt
            · exact Nat.le_of_lt (Nat.lt_trans hklt (hsorted _ i hgt hiN))
          obtain ⟨r, hr, hr1, hr2, hr3, hr4⟩ :=
            ih lo ((hi - lo) / 2 + lo) p key N (by omega) (by omega) (by omega)
              hN13 hsorted hlow hhigh2
          exact ⟨r, hr, hr1, by omega, hr3, hr4⟩
        · rw [if_neg hklt]
          have hmidkey : leafKeyAt p ((hi - lo) / 2 + lo) < key := by omega
          have hlow2 : ∀ i, i < (hi - lo) / 2 + lo + 1 → leafKeyAt p i < key := by
            intro i hi2
            by_cases hilo : i < lo
            · exact hlow i hilo
            · rcases Nat.lt_or_ge i ((hi - lo) / 2 + lo) with hlt2 | hge2
              · exact Nat.lt_trans (hsorted i _ hlt2 (by omega)) hmidkey
              · have : i = (hi - lo) / 2 + lo := by omega
                exact this ▸ hmidkey
          obtain ⟨r, hr, hr1, hr2, hr3, hr4⟩ :=
            ih ((hi - lo) / 2 + lo + 1) hi p key N (by omega) (by omega) hhiN
              hN13 hsorted hlow2 hhigh
          exact ⟨r, hr, by omega, hr2, hr3, hr4⟩

/-- The binary search of `internalNodeFindChild` returns the first separator
index whose key is at least the target, over weakly sorted separators. -/
theorem findChildLoop_spec (fuel : Nat) :
    ∀ lo hi p key N, hi - lo < fuel → lo ≤ hi → hi ≤ N → N ≤ 3 →
    (∀ i j, i < j → j < N → internalKeyAt p i ≤ internalKeyAt p j) →
    (∀ i, i < lo → internalKeyAt p i < key) →
    (∀ i, hi ≤ i → i < N → key ≤ internalKeyAt p i) →
    ∃ r, findChildLoop fuel p key lo hi = .ok r ∧ lo ≤ r ∧ r ≤ hi ∧
      (∀ i, i < r → internalKeyAt p i < key) ∧
      (r < N → key ≤ internalKeyAt p r) := by
  induction fuel with
  | zero => intro lo hi p key N hfuel; omega
  | succ fuel ih =>
    intro lo hi p key N hfuel hlohi hhiN hN3 hsorted hlow hhigh
    unfold findChildLoop
    by_cases heq : lo = hi
    · subst heq
      rw [if_pos rfl]
      exact ⟨lo, rfl, Nat.le_refl lo, Nat.le_refl lo, hlow,
        fun hlt => hhigh lo (Nat.le_refl lo) hlt⟩
    · rw [if_neg heq]
      try dsimp only
      have hlt : lo < hi := by omega
      have hmid2 : (hi - lo) / 2 + lo ≤ 2 := by omega
      rw [internalNodeCellOff_ok _ hmid2, ok_bind]
      rw [show getU32 p (internalNodeHeaderSize + ((hi - lo) / 2 + lo) * internalNodeCellSize
        + internalNodeChildSize) = internalKeyAt p ((hi - lo) / 2 + lo) from rfl]
      have hmidlt : (hi - lo) / 2 + lo < hi := by omega
      by_cases hge : internalKeyAt p ((hi - lo) / 2 + lo) ≥ key
      · rw [if_pos hge]
        have hhigh2 : ∀ i, (hi - lo) / 2 + lo ≤ i → i < N → key ≤ internalKeyAt p i := by
          intro i hge2 hiN
          rcases Nat.eq_or_lt_of_le hge2 with rfl | hgt
          · exact hge
          · exact Nat.le_trans hge (hsorted _ i hgt hiN)
        obtain ⟨r, hr, hr1, hr2, hr3, hr4⟩ :=
          ih lo ((hi - lo) / 2 + lo) p key N (by omega) (by omega) (by omega)
            hN3 hsorted hlow hhigh2
        exact ⟨r, hr, hr1, by omega, hr3, hr4⟩
      · rw [if_neg hge]
        have hmidkey : internalKeyAt p ((hi - lo) / 2 + lo) < key := by omega
        have hlow2 : ∀ i, i < (hi - lo) / 2 + lo + 1 → internalKeyAt p i < key := by
          intro i hi2
          by_cases hilo : i < lo
          · exact hlow i hilo
          · rcases Nat.lt_or_ge i ((hi - lo) / 2 + lo) with hlt2 | hge2
            · exact Nat.lt_of_le_of_lt (hsorted i _ hlt2 (by omega)) hmidkey
            · have : i = (hi - lo) / 2 + lo := by omega
              exact this ▸ hmidkey
        obtain ⟨r, hr, hr1, hr2, hr3, hr4⟩ :=
          ih ((hi - lo) / 2 + lo + 1) hi p key N (by omega) (by omega) hhiN
            hN3 hsorted hlow2 hhigh
        exact ⟨r, hr, by omega, hr2, hr3, hr4⟩

/-- The zero page is not a leaf, so it is vacuously sorted. -/
theorem pageLeafSorted_zero : pageLeafSorted zeroPage := by
  intro h
  exact absurd h (by decide)

/-- Reading the slot just overwritten. -/
theorem getD_set_self (l : List (Option Page)) (n : Nat) (x : Option Page)
    (h : n < l.length) : (l.set n x).getD n none = x := by
  induction l generalizing n with
  | nil => simp at h
  | cons a tl ih =>
    cases n with
    | zero => rfl
    | succ n => exact ih n (by simpa using h)

/-- Reading any other slot after an overwrite. -/
theorem getD_set_ne (l : List (Option Page)) (n i : Nat) (x : Option Page)
    (h : i ≠ n) : (l.set n x).getD i none = l.getD i none := by
  induction l generalizing n i with
  | nil => rfl
  | cons a tl ih =>
    cases n with
    | zero => cases i with
      | zero => exact absurd rfl h
      | succ i => rfl
    | succ n => cases i with
      | zero => rfl
      | succ i => exact ih n i (fun he => h (by rw [he]))

/-- A populated slot holds an element of the slot list. -/
theorem getD_mem (l : List (Option Page)) (n : Nat) (p : Page)
    (h : l.getD n none = some p) : some p ∈ l := by
  induction l generalizing n with
  | nil => simp [List.getD] at h
  | cons a tl ih =>
    cases n with
    | zero => exact h ▸ List.mem_cons_self _ _
    | succ n => exact List.mem_cons_of_mem a (ih n h)

/-- `getPage` preserves the sorted-leaves invariant, returns a page that is
sorted if it is a leaf, leaves the file and root untouched, and caches the
returned page in its slot. -/
theorem getPage_inv (t : Table) (pn : Nat) (pg : Page) (t2 : Table)
    (h : getPage t pn = .ok (pg, t2)) (hinv : tableLeafInv t) :
    tableLeafInv t2 ∧ pageLeafSorted pg ∧
    t2.pager.pages.getD pn none = some pg ∧
    t2.pager.fileBytes = t.pager.fileBytes ∧
    t2.rootPageNum = t.rootPageNum ∧ pn < tableMaxPages := by
  unfold getPage at h
  split at h
  · simp at h
  next hpn =>
    have hpn2 : pn < tableMaxPages := by omega
    split at h
    next p heq =>
      injection h with h2
      injection h2 with hpg ht2
      subst hpg
      subst ht2
      exact ⟨hinv, hinv.2.1 pn _ heq, heq, rfl, rfl, hpn2⟩
    next heq =>
      injection h with h2
      injection h2 with hpg ht2
      subst hpg
      subst ht2
      have hsortpg : pageLeafSorted
          (if pn < t.pager.fileLength / pageSize +
              (if t.pager.fileLength % pageSize ≠ 0 then 1 else 0)
            then chunk (t.pager.fileBytes pn) 0 pageSize else zeroPage) := by
        split <;> split
        · exact hinv.2.2 pn
        · exact pageLeafSorted_zero
        · exact hinv.2.2 pn
        · exact pageLeafSorted_zero
      refine ⟨⟨?_, ?_, ?_⟩, hsortpg, ?_, rfl, rfl, hpn2⟩
      · simpa using hinv.1
      · intro i p' hi
        by_cases hieq : i = pn
        · subst hieq
          rw [getD_set_self _ _ _ (by rw [hinv.1]; exact hpn2)] at hi
          injection hi with hi2
          exact hi2 ▸ hsortpg
        · rw [getD_set_ne _ _ _ _ hieq] at hi
          exact hinv.2.1 i p' hi
      · exact hinv.2.2
      · exact getD_set_self _ _ _ (by rw [hinv.1]; exact hpn2)

/-- A page already cached in its slot is returned unchanged. -/
theorem getPage_cached (t : Table) (pn : Nat) (p : Page)
    (hpn : pn < tableMaxPages)
    (hslot : t.pager.pages.getD pn none = some p) :
    getPage t pn = .ok (p, t) := by
  unfold getPage
  rw [if_neg (Nat.not_le.mpr hpn), hslot]

/-- A sorted leaf holds at most 13 cells. -/
theorem leafSortedB_le (p : Page) (h : leafSortedB p = true) :
    getU32 p leafNodeNumCellsOffset ≤ 13 := by
  unfold leafSortedB at h
  rw [Bool.and_eq_true] at h
  exact of_decide_eq_true h.1

/-- The keys of a sorted leaf are strictly increasing. -/
theorem leafSortedB_sorted (p : Page) (h : leafSortedB p = true) :
    ∀ i j, i < j → j < getU32 p leafNodeNumCellsOffset →
      leafKeyAt p i < leafKeyAt p j := by
  unfold leafSortedB at h
  rw [Bool.and_eq_true] at h
  have h2 := h.2
  rw [List.all_eq_true] at h2
  intro i j hij hj
  have h3 := h2 j (List.mem_range.mpr hj)
  rw [List.all_eq_true] at h3
  exact of_decide_eq_true (h3 i (List.mem_range.mpr hij))

/-- `leafNodeFind` on a sorted leaf returns the first cell whose key is at
least the target (or `num_cells` if none). -/
theorem leafNodeFind_spec (t t1 : Table) (pn key : Nat) (p : Page)
    (hget : getPage t pn = .ok (p, t1))
    (hsort : leafSortedB p = true) :
    ∃ r, leafNodeFind t pn key = .ok (⟨pn, r, false⟩, t1) ∧
      r ≤ getU32 p leafNodeNumCellsOffset ∧
      (∀ i, i < r → leafKeyAt p i < key) ∧
      (r < getU32 p leafNodeNumCellsOffset → key ≤ leafKeyAt p r) := by
  have hN13 := leafSortedB_le p hsort
  obtain ⟨r, hr, hr1, hr2, hr3, hr4⟩ :=
    leafFindLoop_spec 64 0 (getU32 p leafNodeNumCellsOffset) p key
      (getU32 p leafNodeNumCellsOffset) (by omega) (by omega) (Nat.le_refl _)
      hN13 (leafSortedB_sorted p hsort)
      (fun i hi => absurd hi (Nat.not_lt_zero i))
      (fun i h1 h2 => absurd (Nat.lt_of_le_of_lt h1 h2) (lt_irrefl _))
  refine ⟨r, ?_, hr2, hr3, hr4⟩
  unfold leafNodeFind
  rw [hget, ok_bind]
  try dsimp only
  rw [hr, ok_bind]

/-- The descent of `internalNodeFind` ends in `leafNodeFind` on a leaf page,
and the returned cursor is the first-at-least position inside that leaf. -/
theorem internalNodeFind_spec (fuel : Nat) : ∀ t pn key c t2,
    internalNodeFind fuel t pn key = .ok (c, t2) → tableLeafInv t →
    ∃ p, t2.pager.pages.getD c.pageNum none = some p ∧
      chunk p nodeTypeOffset 1 = nodeLeaf ∧ c.endOfTable = false ∧
      c.cellNum ≤ getU32 p leafNodeNumCellsOffset ∧
      (∀ i, i < c.cellNum → leafKeyAt p i < key) ∧
      (c.cellNum < getU32 p leafNodeNumCellsOffset → key ≤ leafKeyAt p c.cellNum) := by
  induction fuel with
  | zero =>
    intro t pn key c t2 h hinv
    exact absurd h (by simp [internalNodeFind])
  | succ fuel ih =>
    intro t pn key c t2 h hinv
    unfold internalNodeFind at h
    rcases hg1 : getPage t pn with e | ⟨node, t3⟩ <;> rw [hg1] at h
    · rw [error_bind] at h
      simp at h
    rw [ok_bind] at h
    try dsimp only at h
    obtain ⟨hinv3, _, _, _, _, _⟩ := getPage_inv t pn node t3 hg1 hinv
    rcases hg2 : internalNodeFindChild node key with e | childIdx <;> rw [hg2] at h
    · rw [error_bind] at h
      simp at h
    rw [ok_bind] at h
    rcases hg3 : internalNodeChildGet t3 pn childIdx with e | childNum <;> rw [hg3] at h
    · rw [error_bind] at h
      simp at h
    rw [ok_bind] at h
    rcases hg4 : getPage t3 childNum with e | ⟨child, t4⟩ <;> rw [hg4] at h
    · rw [error_bind] at h
      simp at h
    rw [ok_bind] at h
    try dsimp only at h
    obtain ⟨hinv4, hsort4, hslot4, _, _, hcn⟩ := getPage_inv t3 childNum child t4 hg4 hinv3
    split at h
    next hleaf =>
      have hgetc : getPage t4 childNum = .ok (child, t4) := getPage_cached t4 childNum child hcn hslot4
      obtain ⟨r, hr, hr2, hr3, hr4⟩ := leafNodeFind_spec t4 t4 childNum key child hgetc (hsort4 hleaf)
      rw [hr] at h
      injection h with h2
      injection h2 with hc ht2
      subst ht2
      rw [← hc]
      exact ⟨child, hslot4, hleaf, rfl, hr2, hr3, hr4⟩
    next hnotleaf =>
      exact ih t4 childNum key c t2 h hinv4

/-- The decidable slot check plus a sorted backing file give the invariant. -/
theorem tableLeafInvB_sound (t : Table) (hb : tableLeafInvB t = true)
    (hf : ∀ pn, pageLeafSorted (chunk (t.pager.fileBytes pn) 0 pageSize)) :
    tableLeafInv t := by
  unfold tableLeafInvB at hb
  rw [Bool.and_eq_true] at hb
  refine ⟨of_decide_eq_true hb.1, ?_, hf⟩
  intro pn p hslot
  have hmem := getD_mem _ _ _ hslot
  have h2 := hb.2
  rw [List.all_eq_true] at h2
  have h3 := h2 _ hmem
  intro hleaf
  rw [show (match some p with
      | some q => if chunk q nodeTypeOffset 1 = nodeLeaf then leafSortedB q else true
      | none => true) = if chunk p nodeTypeOffset 1 = nodeLeaf then leafSortedB p else true
    from rfl, if_pos hleaf] at h3
  exact h3

/-- C5: on every state whose leaves hold strictly increasing keys, a
successful `tableFind(key)` returns a non-end cursor on a leaf page (the one
the descent designates) positioned at the first cell whose stored key is at
least the target, or at that leaf's `num_cells` when no such cell exists;
and the per-node child search `internalNodeFindChild` likewise returns the
first separator index whose key is at least the target (or `num_keys`),
which routes the descent to the responsible leaf. -/
theorem tableFind_first_geq (fuel : Nat) (t : Table) (key : Nat) (c : Cursor)
    (t2 : Table) (hinv : tableLeafInv t)
    (h : tableFind fuel t key = .ok (c, t2)) :
    (∃ p, t2.pager.pages.getD c.pageNum none = some p ∧
      chunk p nodeTypeOffset 1 = nodeLeaf ∧ c.endOfTable = false ∧
      c.cellNum ≤ getU32 p leafNodeNumCellsOffset ∧
      (∀ i, i < c.cellNum → leafKeyAt p i < key) ∧
      (c.cellNum < getU32 p leafNodeNumCellsOffset → key ≤ leafKeyAt p c.cellNum)) ∧
    (∀ q k2 idx, getU32 q internalNodeNumKeysOffset ≤ internalNodeMaxCells →
      (∀ i j, i < j → j < getU32 q internalNodeNumKeysOffset →
        internalKeyAt q i ≤ internalKeyAt q j) →
      internalNodeFindChild q k2 = .ok idx →
      idx ≤ getU32 q internalNodeNumKeysOffset ∧
      (∀ i, i < idx → internalKeyAt q i < k2) ∧
      (idx < getU32 q internalNodeNumKeysOffset → k2 ≤ internalKeyAt q idx)) := by
  constructor
  · unfold tableFind at h
    rcases hg1 : getPage t t.rootPageNum with e | ⟨rootNode, t3⟩ <;> rw [hg1] at h
    · rw [error_bind] at h
      simp at h
    rw [ok_bind] at h
    try dsimp only at h
    obtain ⟨hinv3, hsort3, hslot3, _, hrootEq, hroot100⟩ :=
      getPage_inv t t.rootPageNum rootNode t3 hg1 hinv
    rw [hrootEq] at h
    split at h
    next hleaf =>
      have hgetc : getPage t3 t.rootPageNum = .ok (rootNode, t3) :=
        getPage_cached t3 t.rootPageNum rootNode hroot100 hslot3
      obtain ⟨r, hr, hr2, hr3, hr4⟩ :=
        leafNodeFind_spec t3 t3 t.rootPageNum key rootNode hgetc (hsort3 hleaf)
      rw [hr] at h
      injection h with h2
      injection h2 with hc ht2
      subst ht2
      rw [← hc]
      exact ⟨rootNode, hslot3, hleaf, rfl, hr2, hr3, hr4⟩
    next hnotleaf =>
      exact internalNodeFind_spec fuel t3 t.rootPageNum key c t2 h hinv3
  · intro q k2 idx hN hsort hfind
    have hN3 : getU32 q internalNodeNumKeysOffset ≤ 3 := hN
    obtain ⟨r, hr, hr1, hr2, hr3, hr4⟩ :=
      findChildLoop_spec 64 0 (getU32 q internalNodeNumKeysOffset) q k2
        (getU32 q internalNodeNumKeysOffset) (by omega) (by omega) (Nat.le_refl _)
        hN3 hsort (fun i hi => absurd hi (Nat.not_lt_zero i))
        (fun i h1 h2 => absurd (Nat.lt_of_le_of_lt h1 h2) (lt_irrefl _))
    unfold internalNodeFindChild at hfind
    rw [hr] at hfind
    injection hfind with hidx
    subst hidx
    exact ⟨hr2, hr3, hr4⟩

/-- The one-row table sits over an all-zero backing file, whose pages are
not leaves and hence vacuously sorted. -/
theorem tDel_file_sorted :
    ∀ pn, pageLeafSorted (chunk (tDel.pager.fileBytes pn) 0 pageSize) := by
  intro pn
  rw [show tDel.pager.fileBytes pn = 0 from rfl,
    show chunk 0 0 pageSize = zeroPage from rfl]
  exact pageLeafSorted_zero

/-- Witness for C5 at the one-row table: finding key 5 lands on cell 0 of
the sorted root leaf, and the child search property holds for every sorted
internal page. -/
theorem tableFind_first_geq_witness :
    (∃ p, tDel.pager.pages.getD (Cursor.mk 0 0 false).pageNum none = some p ∧
      chunk p nodeTypeOffset 1 = nodeLeaf ∧ (Cursor.mk 0 0 false).endOfTable = false ∧
      (Cursor.mk 0 0 false).cellNum ≤ getU32 p leafNodeNumCellsOffset ∧
      (∀ i, i < (Cursor.mk 0 0 false).cellNum → leafKeyAt p i < 5) ∧
      ((Cursor.mk 0 0 false).cellNum < getU32 p leafNodeNumCellsOffset →
        5 ≤ leafKeyAt p (Cursor.mk 0 0 false).cellNum)) ∧
    (∀ q k2 idx, getU32 q internalNodeNumKeysOffset ≤ internalNodeMaxCells →
      (∀ i j, i < j → j < getU32 q internalNodeNumKeysOffset →
        internalKeyAt q i ≤ internalKeyAt q j) →
      internalNodeFindChild q k2 = .ok idx →
      idx ≤ getU32 q internalNodeNumKeysOffset ∧
      (∀ i, i < idx → internalKeyAt q i < k2) ∧
      (idx < getU32 q internalNodeNumKeysOffset → k2 ≤ internalKeyAt q idx)) :=
  tableFind_first_geq 100 tDel 5 (Cursor.mk 0 0 false) tDel
    (tableLeafInvB_sound tDel (by rfl) tDel_file_sorted) (by rfl)

/-! Algebra of `chunk` and `splice`: a read of a region sees the last write
covering it, and is untouched by disjoint writes. -/

/-- Place values multiply. -/
theorem pow256_mul (a b : Nat) : pow256 a * pow256 b = pow256 (a + b) := by
  rw [pow256_eq, pow256_eq, pow256_eq, pow_add]

/-- A spliced page, rearranged around the write boundary. -/
theorem splice_decomp (p off n c : Nat) :
    splice p off n c =
      p % pow256 off +
        pow256 off * (c % pow256 n + pow256 n * (p / pow256 (off + n))) := by
  unfold splice
  have : pow256 (off + n) = pow256 off * pow256 n := (pow256_mul off n).symm
  rw [this]
  ring

/-- The bytes of a page below the write region of a splice. -/
theorem splice_mod_low (p off n c : Nat) :
    splice p off n c % pow256 off = p % pow256 off := by
  rw [splice_decomp, Nat.add_mul_mod_self_left,
    Nat.mod_mod_of_dvd _ (dvd_refl _)]

/-- The page above the write boundary of a splice. -/
theorem splice_div_mid (p off n c : Nat) :
    splice p off n c / pow256 off =
      c % pow256 n + pow256 n * (p / pow256 (off + n)) := by
  rw [splice_decomp, Nat.add_mul_div_left _ _ (pow256_pos off),
    Nat.div_eq_of_lt (Nat.mod_lt _ (pow256_pos off)), Nat.zero_add]

/-- The bytes of a page above the whole spliced region. -/
theorem splice_div_high (p off n c : Nat) :
    splice p off n c / pow256 (off + n) = p / pow256 (off + n) := by
  have hE := pow256_pos off
  have hN := pow256_pos n
  have hmod : c % pow256 n + 1 ≤ pow256 n := Nat.mod_lt _ hN
  have hb : p % pow256 off + pow256 off * (c % pow256 n) < pow256 (off + n) := by
    calc p % pow256 off + pow256 off * (c % pow256 n)
        < pow256 off + pow256 off * (c % pow256 n) := by
          exact Nat.add_lt_add_right (Nat.mod_lt _ hE) _
      _ = pow256 off * (c % pow256 n + 1) := by ring
      _ ≤ pow256 off * pow256 n := Nat.mul_le_mul_left _ hmod
      _ = pow256 (off + n) := pow256_mul off n
  rw [splice_decomp]
  rw [show p % pow256 off + pow256 off * (c % pow256 n + pow256 n * (p / pow256 (off + n)))
      = (p % pow256 off + pow256 off * (c % pow256 n)) +
        pow256 (off + n) * (p / pow256 (off + n)) from by
    rw [← pow256_mul]; ring]
  rw [Nat.add_mul_div_left _ _ (pow256_pos (off + n)), Nat.div_eq_of_lt hb,
    Nat.zero_add]

/-- A chunk read below offset `m` only depends on the page modulo
`256 ^ m`. -/
theorem chunk_depends_on_mod (x m off2 n2 : Nat) (hle : off2 + n2 ≤ m) :
    chunk x off2 n2 = chunk (x % pow256 m) off2 n2 := by
  unfold chunk
  have hsplit : pow256 m = pow256 off2 * pow256 (m - off2) := by
    rw [pow256_mul, Nat.add_sub_cancel' (show off2 ≤ m by omega)]
  have hx : x = pow256 m * (x / pow256 m) + x % pow256 m :=
    (Nat.div_add_mod x (pow256 m)).symm
  have hKdvd : pow256 n2 ∣ pow256 (m - off2) := by
    rw [pow256_eq, pow256_eq]
    exact pow_dvd_pow 256 (by omega)
  conv_lhs => rw [hx]
  rw [hsplit, Nat.mul_assoc, Nat.mul_add_div (pow256_pos off2)]
  obtain ⟨K2, hK2⟩ := hKdvd
  rw [hK2]
  rw [show pow256 n2 * K2 * (x / (pow256 off2 * (pow256 n2 * K2)))
      = pow256 n2 * (K2 * (x / (pow256 off2 * (pow256 n2 * K2)))) from by ring]
  rw [Nat.mul_add_mod]

/-- A read strictly below a write is unchanged. -/
theorem chunk_splice_below (p off n c off2 n2 : Nat) (h : off2 + n2 ≤ off) :
    chunk (splice p off n c) off2 n2 = chunk p off2 n2 := by
  rw [chunk_depends_on_mod _ off _ _ h, splice_mod_low,
    ← chunk_depends_on_mod _ off _ _ h]

/-- A read strictly above a write is unchanged. -/
theorem chunk_splice_above (p off n c off2 n2 : Nat) (h : off + n ≤ off2) :
    chunk (splice p off n c) off2 n2 = chunk p off2 n2 := by
  unfold chunk
  have hsplit : pow256 off2 = pow256 (off + n) * pow256 (off2 - (off + n)) := by
    rw [pow256_mul, Nat.add_sub_cancel' h]
  rw [hsplit, ← Nat.div_div_eq_div_mul, splice_div_high, Nat.div_div_eq_div_mul]

/-- A read inside a write sees the written bytes. -/
theorem chunk_splice_inside (p off n c off2 n2 : Nat)
    (h1 : off ≤ off2) (h2 : off2 + n2 ≤ off + n) :
    chunk (splice p off n c) off2 n2 = chunk c (off2 - off) n2 := by
  have hD : pow256 off2 = pow256 off * pow256 (off2 - off) := by
    rw [pow256_mul, Nat.add_sub_cancel' h1]
  have hND : pow256 n = pow256 (off2 - off) * pow256 (n - (off2 - off)) := by
    rw [pow256_mul, Nat.add_sub_cancel' (show off2 - off ≤ n by omega)]
  have hN2dvd : pow256 n2 ∣ pow256 (n - (off2 - off)) := by
    rw [pow256_eq, pow256_eq]
    exact pow_dvd_pow 256 (by omega)
  obtain ⟨K2, hK2⟩ := hN2dvd
  have hrhs : chunk c (off2 - off) n2 = chunk (c % pow256 n) (off2 - off) n2 :=
    chunk_depends_on_mod c n (off2 - off) n2 (by omega)
  rw [hrhs]
  unfold chunk
  rw [hD, ← Nat.div_div_eq_div_mul, splice_div_mid]
  rw [show c % pow256 n + pow256 n * (p / pow256 (off + n))
      = c % pow256 n + pow256 (off2 - off) *
        (pow256 (n - (off2 - off)) * (p / pow256 (off + n))) from by
    rw [hND]; ring]
  rw [Nat.add_mul_div_left _ _ (pow256_pos (off2 - off))]
  rw [hK2]
  rw [show c % pow256 n / pow256 (off2 - off) +
      pow256 n2 * K2 * (p / pow256 (off + n))
      = c % pow256 n / pow256 (off2 - off) +
        pow256 n2 * (K2 * (p / pow256 (off + n))) from by ring]
  rw [Nat.add_mul_mod_self_left]

/-- Reading inside an earlier chunk read composes offsets. -/
theorem chunk_chunk (p off n off2 n2 : Nat) (h : off2 + n2 ≤ n) :
    chunk (chunk p off n) off2 n2 = chunk p (off + off2) n2 := by
  rw [show chunk p off n = p / pow256 off % pow256 n from rfl,
    ← chunk_depends_on_mod (p / pow256 off) n off2 n2 h]
  unfold chunk
  rw [Nat.div_div_eq_div_mul, pow256_mul]

/-- A zero-offset chunk is a plain truncation. -/
theorem chunk_zero (c n : Nat) : chunk c 0 n = c % pow256 n := by
  unfold chunk
  rw [show pow256 0 = 1 from rfl, Nat.div_one]

/-- Truncating a wrapped `uint32` to 4 bytes changes nothing. -/
theorem w32_mod_pow4 (v : Nat) : w32 v % pow256 4 = w32 v := by
  rw [show pow256 4 = u32Size from rfl]
  exact Nat.mod_mod_of_dvd v (dvd_refl u32Size)

/-- A little-endian byte number fits its width. -/
theorem leBytes_lt (l : List Nat) (n : Nat) : leBytes l n < pow256 n := by
  induction n generalizing l with
  | zero => simp [leBytes, pow256]
  | succ n ih =>
    have h1 : l.headD 0 % 256 < 256 := Nat.mod_lt _ (by omega)
    have h2 := ih l.tail
    have h3 : pow256 (n + 1) = 256 * pow256 n := by
      rw [pow256_eq, pow256_eq, pow_succ]
      ring
    rw [show leBytes l (n + 1) = l.headD 0 % 256 + 256 * leBytes l.tail n from rfl, h3]
    omega

/-- Truncating a little-endian byte number to its width changes nothing. -/
theorem leBytes_mod (l : List Nat) (n : Nat) : leBytes l n % pow256 n = leBytes l n :=
  Nat.mod_eq_of_lt (leBytes_lt l n)

/-- A serialized row is `rowSize = 291` bytes long. -/
theorem serializeRow_length (r : Row) : (serializeRow r).length = rowSize := by
  simp [serializeRow, padTrunc, u32Bytes, usernameSize, emailSize, rowSize,
    idSize]
  omega

/-- Reading back the slot a `setPage` just wrote. -/
theorem pageAt_setPage_self (t : Table) (pn : Nat) (q : Page)
    (h : pn < t.pager.pages.length) : pageAt (setPage t pn q) pn = q := by
  unfold pageAt setPage
  rw [getD_set_self _ _ _ h]
  rfl

/-- Reading another slot after a `setPage`. -/
theorem pageAt_setPage_ne (t : Table) (pn qn : Nat) (q : Page) (h : qn ≠ pn) :
    pageAt (setPage t pn q) qn = pageAt t qn := by
  unfold pageAt setPage
  rw [getD_set_ne _ _ _ _ h]

/-- `setPage` keeps the slot-table length. -/
theorem setPage_length (t : Table) (pn : Nat) (q : Page) :
    (setPage t pn q).pager.pages.length = t.pager.pages.length := by
  simp [setPage]

/-- `setPage` keeps the page count. -/
theorem setPage_numPages (t : Table) (pn : Nat) (q : Page) :
    (setPage t pn q).pager.numPages = t.pager.numPages := rfl

/-- `setPage` keeps the stored file length. -/
theorem setPage_fileLength (t : Table) (pn : Nat) (q : Page) :
    (setPage t pn q).pager.fileLength = t.pager.fileLength := rfl

/-- `setPage` keeps the file contents. -/
theorem setPage_fileBytes (t : Table) (pn : Nat) (q : Page) :
    (setPage t pn q).pager.fileBytes = t.pager.fileBytes := rfl

/-- `setPage` keeps the root page number. -/
theorem setPage_rootPageNum (t : Table) (pn : Nat) (q : Page) :
    (setPage t pn q).rootPageNum = t.rootPageNum := rfl

end DbScratch
